import Mathlib

/-!
Verification development for the evalml forecast-evaluation pipeline.

The Python sources are shallowly embedded as Lean definitions:

* floating-point values are modelled as `Option ℚ` (`none` models IEEE NaN;
  all finite values in the claims are exactly representable as rationals);
* an xarray `DataArray` reduced over its reduction dimensions is modelled as
  the list of samples it reduces over; a `Dataset` of named variables is an
  ordered association list;
* the xarray reduction operations (`mean`, `var`, `min`, `max` with
  `skipna=True`, and `xr.corr`) are modelled by their documented semantics:
  reduce over the non-NaN entries, yield NaN when no valid entry exists.

Every definition is translated from the functions in
`src/verification/__init__.py`, `src/data_input/__init__.py`,
`workflow/scripts/verif_aggregation.py`, `workflow/scripts/verif_plot_metrics.py`
and `workflow/scripts/src/verification.py`.
-/

/-- A floating-point value: `none` models IEEE NaN, `some q` a finite value. -/
abbrev Val := Option ℚ

/-- Float subtraction: NaN propagates. -/
def vSub : Val → Val → Val
  | some a, some b => some (a - b)
  | _, _ => none

/-- Float multiplication: NaN propagates. -/
def vMul : Val → Val → Val
  | some a, some b => some (a * b)
  | _, _ => none

/-- Float absolute value: NaN propagates. -/
def vAbs : Val → Val
  | some a => some |a|
  | none => none

/-- The non-NaN entries of a sample list. -/
def validVals (xs : List Val) : List ℚ :=
  xs.filterMap id

/-- Plain arithmetic mean of a list of rationals (junk value 0 on `[]`). -/
def rmean (l : List ℚ) : ℚ :=
  l.sum / l.length

/-- Plain population variance (`ddof = 0`, as numpy/xarray default). -/
def rvar (l : List ℚ) : ℚ :=
  ((l.map fun q => (q - rmean l) ^ 2).sum) / l.length

/-- Plain minimum of a list of rationals (junk value 0 on `[]`). -/
def rmin : List ℚ → ℚ
  | [] => 0
  | h :: t => t.foldl min h

/-- Plain maximum of a list of rationals (junk value 0 on `[]`). -/
def rmax : List ℚ → ℚ
  | [] => 0
  | h :: t => t.foldl max h

/-- Models `DataArray.mean(dim, skipna=True)`: mean over the non-NaN
entries, NaN when there is none. -/
def nanmean (xs : List Val) : Val :=
  match validVals xs with
  | [] => none
  | l => some (rmean l)

/-- Models `DataArray.var(dim, skipna=True)` (population variance,
`ddof = 0`): variance over the non-NaN entries, NaN when there is none. -/
def nanvar (xs : List Val) : Val :=
  match validVals xs with
  | [] => none
  | l => some (rvar l)

/-- Models `DataArray.min(dim, skipna=True)`. -/
def nanmin (xs : List Val) : Val :=
  match validVals xs with
  | [] => none
  | l => some (rmin l)

/-- Models `DataArray.max(dim, skipna=True)`. -/
def nanmax (xs : List Val) : Val :=
  match validVals xs with
  | [] => none
  | l => some (rmax l)

/-- Models a float reduction called with no `skipna` argument on a
non-float dtype: NaN propagates (and an empty reduction is NaN). -/
def meanNoSkip (xs : List Val) : Val :=
  if xs.any Option.isNone then none else nanmean xs

/-- Models `DataArray.mean(dim)` with `skipna` left at its default: xarray
resolves the default to skip-NaN exactly for inexact (floating-point)
dtypes, and to propagation otherwise. -/
def meanDefault (floatDtype : Bool) (xs : List Val) : Val :=
  if floatDtype then nanmean xs else meanNoSkip xs

/-- The index-paired samples where both arrays are non-NaN; `xr.corr`
restricts both inputs to these before any reduction. -/
def validPairs (f o : List Val) : List (ℚ × ℚ) :=
  (f.zip o).filterMap fun p =>
    match p with
    | (some a, some b) => some (a, b)
    | _ => none

/-- Covariance (ddof 0) of a list of pairs. -/
def pairCov (pairs : List (ℚ × ℚ)) : ℚ :=
  rmean (pairs.map fun p => (p.1 - rmean (pairs.map Prod.fst)) *
    (p.2 - rmean (pairs.map Prod.snd)))

/-- Product of the two marginal variances (ddof 0) of a list of pairs. -/
def pairVarProd (pairs : List (ℚ × ℚ)) : ℚ :=
  rvar (pairs.map Prod.fst) * rvar (pairs.map Prod.snd)

/-- Exact representation of a correlation value `cov / sqrt (varProd)`:
`none` models NaN, `some (cov, varProd)` the real number
`cov / Real.sqrt varProd`. -/
abbrev CorrRep := Option (ℚ × ℚ)

/-- Correlation representation of a list of pairs: NaN when there is no
pair or one of the marginal variances is zero (the float division 0/0). -/
def corrOfPairs (pairs : List (ℚ × ℚ)) : CorrRep :=
  if pairs = [] then none
  else if pairVarProd pairs = 0 then none
  else some (pairCov pairs, pairVarProd pairs)

/-- Models `xr.corr(fcst, obs, dim)`: Pearson correlation over the
pairwise-complete (both non-NaN) samples. -/
def xrCorr (f o : List Val) : CorrRep :=
  corrOfPairs (validPairs f o)

/-- Models `xr.corr(fcst, obs, dim) ** 2`: the square of the correlation is
the rational `cov ^ 2 / varProd`; NaN squares to NaN. -/
def xrCorrSq (f o : List Val) : Val :=
  (xrCorr f o).map fun p => p.1 ^ 2 / p.2

/-- A value of a metric dataset: either an exactly-representable float or a
correlation value. -/
inductive Entry
  | num (v : Val)
  | corr (c : CorrRep)
deriving DecidableEq

/-- Output keys of `_compute_scores`, in source order
(`src/verification/__init__.py`). -/
def scoreKeys (pre suf : String) : List String :=
  [pre ++ "BIAS" ++ suf, pre ++ "MSE" ++ suf, pre ++ "MAE" ++ suf,
   pre ++ "VAR" ++ suf, pre ++ "CORR" ++ suf, pre ++ "R2" ++ suf]

/-- Output values of `_compute_scores` on one reduction slice:
`error = fcst - obs`, then mean / mean of squares / mean of absolute values /
variance of the error (all `skipna=True`), correlation and its square. -/
def scoreValues (f o : List Val) : List Entry :=
  let error := List.zipWith vSub f o
  [.num (nanmean error),
   .num (nanmean (error.map fun e => vMul e e)),
   .num (nanmean (error.map vAbs)),
   .num (nanvar error),
   .corr (xrCorr f o),
   .num (xrCorrSq f o)]

/-- Embedding of `_compute_scores` (`src/verification/__init__.py`, the
canonical variant): the returned `xr.Dataset` as an ordered association
list, one reduction slice at a time. -/
def compute_scores (f o : List Val) (pre suf : String) : List (String × Entry) :=
  (scoreKeys pre suf).zip (scoreValues f o)

/-- Output keys of `_compute_statistics`, in source order. -/
def statKeys (pre suf : String) : List String :=
  [pre ++ "mean" ++ suf, pre ++ "var" ++ suf, pre ++ "min" ++ suf,
   pre ++ "max" ++ suf]

/-- Output values of `_compute_statistics` on one reduction slice (all four
reductions are called with `skipna=True`). -/
def statValues (d : List Val) : List Entry :=
  [.num (nanmean d), .num (nanvar d), .num (nanmin d), .num (nanmax d)]

/-- Embedding of `_compute_statistics` (`src/verification/__init__.py`). -/
def compute_statistics (d : List Val) (pre suf : String) : List (String × Entry) :=
  (statKeys pre suf).zip (statValues d)

/-- Output values of the older `_compute_scores` variant
(`workflow/scripts/src/verification.py`): `BIAS`, `MSE` and `MAE` call
`mean(dim)` without a `skipna` argument, so the xarray dtype-dependent
default applies; `VAR`, `CORR` and `R2` are as in the canonical variant. -/
def scoreValuesOld (floatDtype : Bool) (f o : List Val) : List Entry :=
  let error := List.zipWith vSub f o
  [.num (meanDefault floatDtype error),
   .num (meanDefault floatDtype (error.map fun e => vMul e e)),
   .num (meanDefault floatDtype (error.map vAbs)),
   .num (nanvar error),
   .corr (xrCorr f o),
   .num (xrCorrSq f o)]

/-- Embedding of the older `_compute_scores`
(`workflow/scripts/src/verification.py`). -/
def compute_scores_old (floatDtype : Bool) (f o : List Val) (pre suf : String) :
    List (String × Entry) :=
  (scoreKeys pre suf).zip (scoreValuesOld floatDtype f o)

/-- The spec's "reduction computed over only the non-NaN samples" for the
error metrics: the pairwise differences of the valid pairs. -/
def specErrs (f o : List Val) : List ℚ :=
  (validPairs f o).map fun p => p.1 - p.2

/-- Real-number denotation of a correlation representation. -/
noncomputable def CorrRep.toOptReal : CorrRep → Option ℝ
  | none => none
  | some p => some ((p.1 : ℝ) / Real.sqrt (p.2 : ℚ))

/-- Modelled from the spec: the standard Pearson correlation coefficient of
a list of paired samples, as a real number —
`sum((x - mean x) * (y - mean y)) / sqrt(sum((x - mean x)^2) * sum((y - mean y)^2))`,
undefined (NaN) when there are no pairs or a marginal variance is zero. -/
noncomputable def pearsonCorr (pairs : List (ℚ × ℚ)) : Option ℝ :=
  if pairs = [] then none
  else
    let mx : ℝ := (pairs.map fun p => (p.1 : ℝ)).sum / pairs.length
    let my : ℝ := (pairs.map fun p => (p.2 : ℝ)).sum / pairs.length
    let sxx := (pairs.map fun p => ((p.1 : ℝ) - mx) ^ 2).sum
    let syy := (pairs.map fun p => ((p.2 : ℝ) - my) ^ 2).sum
    let sxy := (pairs.map fun p => ((p.1 : ℝ) - mx) * ((p.2 : ℝ) - my)).sum
    if sxx = 0 ∨ syy = 0 then none
    else some (sxy / (Real.sqrt sxx * Real.sqrt syy))

/-- Sum of squared deviations of the first pair components. -/
def sFst (pairs : List (ℚ × ℚ)) : ℚ :=
  (pairs.map fun p => (p.1 - rmean (pairs.map Prod.fst)) ^ 2).sum

/-- Sum of squared deviations of the second pair components. -/
def sSnd (pairs : List (ℚ × ℚ)) : ℚ :=
  (pairs.map fun p => (p.2 - rmean (pairs.map Prod.snd)) ^ 2).sum

/-- Sum of products of deviations. -/
def sCross (pairs : List (ℚ × ℚ)) : ℚ :=
  (pairs.map fun p =>
    (p.1 - rmean (pairs.map Prod.fst)) * (p.2 - rmean (pairs.map Prod.snd))).sum

/-- Models `fillna(0)`: NaN entries become zero. -/
def fillna0 (xs : List Val) : List Val :=
  xs.map fun v => some (v.getD 0)

/-- Models `diff("lead_time")` (default `label="upper"`): consecutive
differences, shortening the axis by one. -/
def diffLeadTime (xs : List Val) : List Val :=
  List.zipWith vSub xs.tail xs

/-- Models `clip(min=0.0)`: values below zero become zero, NaN stays NaN. -/
def clipMin0 : Val → Val :=
  Option.map fun q => max q 0

/-- Embedding of the TOT_PREC disaggregation expression shared by
`load_fct_data_from_grib` and `load_baseline_from_zarr`
(`src/data_input/__init__.py`):
`x.TOT_PREC.fillna(0).diff("lead_time").pad(lead_time=(1, 0), constant_value=None).clip(min=0.0)`.
The `constant_value=None` keyword is not a parameter of `DataArray.pad`
(the fill-value parameter is spelled `constant_values`); it is collected
into `**pad_width_kwargs` and silently dropped because no dimension of that
name exists, so `pad` uses its default constant fill, which for float data
is NaN: the padding prepends one NaN along `lead_time`. -/
def disaggregate_tot_prec (xs : List Val) : List Val :=
  (none :: diffLeadTime (fillna0 xs)).map clipMin0

/-- Modelled from the spec: the disaggregation rule the spec fixes — the
value preceding the first interval is treated as zero (the accumulated
series is differenced against a zero-padded start), then the increments
are clipped at zero, so every lead time including the first is defined. -/
def disaggregate_spec (xs : List Val) : List Val :=
  (diffLeadTime (some 0 :: fillna0 xs)).map clipMin0

/-- A spatial grid point carrying its longitude/latitude coordinates. -/
structure Pt where
  lon : ℚ
  lat : ℚ
deriving DecidableEq

/-- A polygon as its closed vertex ring (list of (x, y) = (lon, lat)). -/
abbrev Polygon := List (ℚ × ℚ)

/-- One edge test of the even-odd crossing rule: does a horizontal ray from
`(x, y)` cross the edge `e`? -/
def edgeCross (x y : ℚ) (e : (ℚ × ℚ) × (ℚ × ℚ)) : Bool :=
  (decide (e.1.2 > y) != decide (e.2.2 > y)) &&
    decide (x < e.1.1 + (e.2.1 - e.1.1) * (y - e.1.2) / (e.2.2 - e.1.2))

/-- Models `shapely.contains_xy(poly, x, y)`: point-in-polygon by the
even-odd (ray crossing) rule over the consecutive edges of the ring. -/
def containsXY (poly : Polygon) (x y : ℚ) : Bool :=
  (poly.zip poly.tail).foldl (fun acc e => xor acc (edgeCross x y e)) false

/-- The built-in "all" region of `ShapefileSpatialAggregationMasks.__init__`:
`Polygon(list(zip([1.5, 16, 16, 1.5, 1.5], [43, 43, 49.5, 49.5, 43])))`. -/
def allRegionPolygon : Polygon :=
  [(3 / 2, 43), (16, 43), (16, 99 / 2), (3 / 2, 99 / 2), (3 / 2, 43)]

/-- Python dict insertion: replace the value in place if the key exists,
else append. -/
def dictInsert (d : List (String × List Polygon)) (k : String) (v : List Polygon) :
    List (String × List Polygon) :=
  if d.any fun p => p.1 = k then
    d.map fun p => if p.1 = k then (k, v) else p
  else d ++ [(k, v)]

/-- The `regions` dict built by `ShapefileSpatialAggregationMasks.__init__`
from a list of shapefiles, each given as (filename stem, polygons already
reprojected to lon/lat — the `pyproj` transform is an external collaborator,
so the model takes the transformed geometry as input): the "all" rectangle
is inserted first, then one entry per shapefile. -/
def buildRegions (files : List (String × List Polygon)) : List (String × List Polygon) :=
  files.foldl (fun acc f => dictInsert acc f.1 f.2) [("all", [allRegionPolygon])]

/-- The Python exceptions the embedded code can raise. -/
inductive PyErr
  | typeError
deriving DecidableEq

/-- Models the `shp` handling of `ShapefileSpatialAggregationMasks.__init__`
(`verify` passes its `regions` argument, default `None`, straight through):
`shp = [shp] if isinstance(shp, str) else shp` leaves `None` unchanged, and
the following `for shapefile in shp` loop then raises `TypeError` on
`None`; a (possibly empty) list yields the regions dict. -/
def initRegions (shp : Option (List (String × List Polygon))) :
    Except PyErr (List (String × List Polygon)) :=
  match shp with
  | none => .error .typeError
  | some files => .ok (buildRegions files)

/-- Models `_mask_from_polygons`: a point is in the mask if it lies in ANY
of the region's polygons (`mask |= contains_xy(poly, lon, lat)`). -/
def mask_from_polygons (polys : List Polygon) (pts : List Pt) : List Bool :=
  pts.map fun p => polys.any fun poly => containsXY poly p.lon p.lat

/-- Models `ShapefileSpatialAggregationMasks.get_masks`: one boolean mask
per region, in the dict's insertion order. -/
def get_masks (regions : List (String × List Polygon)) (pts : List Pt) :
    List (String × List Bool) :=
  regions.map fun r => (r.1, mask_from_polygons r.2 pts)

/-- The common gridded/point dataset abstraction used by `verify`: one
indexed temporal dimension (its coordinate values, as exact rationals), a
flattened spatial dimension whose points carry latitude/longitude
coordinates, and named data variables laid out time-major
(`vars[i].2[t][j]` is the value of variable `i` at time index `t` and
spatial index `j`). Latitude/longitude are non-index coordinates, so
`xr.align` joins on the temporal dimension. -/
structure VDat where
  times : List ℚ
  pts : List Pt
  vars : List (String × List (List Val))
deriving DecidableEq

/-- Coordinate intersection for an inner join, in the order of the first
argument (pandas `Index.intersection` keeps the calling index's order). -/
def interTimes (a b : List ℚ) : List ℚ :=
  a.filter fun t => b.contains t

/-- The data row of `rows` (indexed like `d.times`) at coordinate value
`t`; an all-missing row if `t` is absent (not reached for inner joins). -/
def rowAt (times : List ℚ) (rows : List (List Val)) (t : ℚ) : List Val :=
  match times.indexOf? t with
  | some i => rows.getD i []
  | none => []

/-- Reindex a dataset onto the temporal coordinate values `ts`. -/
def selTimes (d : VDat) (ts : List ℚ) : VDat :=
  { times := ts
    pts := d.pts
    vars := d.vars.map fun v => (v.1, ts.map fun t => rowAt d.times v.2 t) }

/-- Models `xr.align(fcst, obs, join="inner", copy=False)`: both datasets
restricted to the intersection of their temporal coordinate values. -/
def alignInner (a b : VDat) : VDat × VDat :=
  (selTimes a (interTimes a.times b.times), selTimes b (interTimes a.times b.times))

/-- Models `DataArray.where(mask)` over the spatial dimension: values at
points outside the mask become NaN, shape preserved. -/
def maskRows (mask : List Bool) (rows : List (List Val)) : List (List Val) :=
  rows.map fun row => List.zipWith (fun b v => if b then v else none) mask row

/-- Transpose helper: the series over time of the `j`-th entry of each
per-time metric list (`n` = number of metrics). -/
def seriesOf (slices : List (List Entry)) (n : Nat) : List (List Entry) :=
  (List.range n).map fun j => slices.map fun s => s.getD j (.num none)

/-- Scores against time: `_compute_scores` with default `dim` reduces the
spatial dimension, leaving one value per time index. -/
def scoresVsTime (frows orows : List (List Val)) (pre suf : String) :
    List (String × List Entry) :=
  (scoreKeys pre suf).zip
    (seriesOf ((frows.zip orows).map fun p => scoreValues p.1 p.2) 6)

/-- Statistics against time, analogously. -/
def statsVsTime (rows : List (List Val)) (pre suf : String) :
    List (String × List Entry) :=
  (statKeys pre suf).zip (seriesOf (rows.map statValues) 4)

/-- One variable of the verification output: name (`{param}.{METRIC}`),
region, source label, and the metric series along the aligned time axis. -/
structure OutVar where
  name : String
  region : String
  source : String
  series : List Entry
deriving DecidableEq

/-- The result of `verify`: the aligned temporal coordinate, the merged
output variables, and the warnings logged. -/
structure VerifyOut where
  times : List ℚ
  vars : List OutVar
  warnings : List String
deriving DecidableEq

/-- The per-parameter, per-region body of the `verify` loop: mask forecast
and observation with the region mask, compute scores (tagged with the
forecast label) and statistics for both sides (tagged with their labels). -/
def verifyParamRegion (param : String) (frows orows : List (List Val))
    (fcstLabel obsLabel : String) (region : String) (mask : List Bool) :
    List OutVar :=
  let fm := maskRows mask frows
  let om := maskRows mask orows
  ((scoresVsTime fm om (param ++ ".") "").map fun p =>
    { name := p.1, region := region, source := fcstLabel, series := p.2 }) ++
  ((statsVsTime fm (param ++ ".") "").map fun p =>
    { name := p.1, region := region, source := fcstLabel, series := p.2 }) ++
  ((statsVsTime om (param ++ ".") "").map fun p =>
    { name := p.1, region := region, source := obsLabel, series := p.2 })

/-- All regions for one parameter, in mask insertion order. -/
def verifyParam (masks : List (String × List Bool)) (param : String)
    (frows orows : List (List Val)) (fcstLabel obsLabel : String) : List OutVar :=
  masks.flatMap fun m => verifyParamRegion param frows orows fcstLabel obsLabel m.1 m.2

/-- Python dict-style lookup in an association list. -/
def lookupVar {α : Type} (n : String) (vs : List (String × α)) : Option α :=
  (vs.find? fun p => p.1 = n).map Prod.snd

/-- The warning `verify` logs for a parameter missing from the truth. -/
def skipWarning (param : String) : String :=
  "Parameter " ++ param ++ " not in obs, skipping"

/-- The parameter loop of `verify`: iterate over the forecast's variables
in order; a parameter missing from the observation dataset logs a warning
and is skipped, all others contribute their per-region output variables. -/
def verifyLoop (masks : List (String × List Bool)) (oaVars : List (String × List (List Val)))
    (fcstLabel obsLabel : String) :
    List (String × List (List Val)) → List OutVar × List String
  | [] => ([], [])
  | pv :: rest =>
    let acc := verifyLoop masks oaVars fcstLabel obsLabel rest
    match lookupVar pv.1 oaVars with
    | none => (acc.1, skipWarning pv.1 :: acc.2)
    | some orows =>
      (verifyParam masks pv.1 pv.2 orows fcstLabel obsLabel ++ acc.1, acc.2)

/-- Embedding of `verify` (`src/verification/__init__.py`): align forecast
and observation with an inner join, build the region masks from `regions`
(the default `None` raises `TypeError` inside
`ShapefileSpatialAggregationMasks.__init__`), compute the masks against the
aligned observation's latitude/longitude, loop over forecast parameters
(skipping, with a warning, those missing from the observation), and merge
everything into one result. -/
def verify (fcst obs : VDat) (fcstLabel obsLabel : String)
    (regions : Option (List (String × List Polygon))) : Except PyErr VerifyOut :=
  match initRegions regions with
  | .error e => .error e
  | .ok regs =>
    let ts := interTimes fcst.times obs.times
    let fa := selTimes fcst ts
    let oa := selTimes obs ts
    let masks := get_masks regs oa.pts
    let body := verifyLoop masks oa.vars fcstLabel obsLabel fa.vars
    .ok { times := ts, vars := body.1, warnings := body.2 }

/-- Remove one parameter from a dataset's variables. -/
def dropParam (p : String) (d : VDat) : VDat :=
  { times := d.times, pts := d.pts, vars := d.vars.filter fun v => v.1 != p }

/-- Embedding of `get_season` (`workflow/scripts/verif_aggregation.py`);
`xarray`'s `ds.ref_time.dt.season`, which `aggregate_results` uses, maps
months to the same four labels. -/
def get_season (month : Nat) : String :=
  if month ∈ [12, 1, 2] then "DJF"
  else if month ∈ [3, 4, 5] then "MAM"
  else if month ∈ [6, 7, 8] then "JJA"
  else "SON"

/-- One pass of left-to-right, non-overlapping replacement over the
character list, with fuel bounded by the list length (kernel-reducible
model of Python `str.replace`). -/
def replaceFuel (pat rep : List Char) : Nat → List Char → List Char
  | 0, l => l
  | _ + 1, [] => []
  | fuel + 1, c :: rest =>
    if pat.isPrefixOf (c :: rest) then
      rep ++ replaceFuel pat rep fuel ((c :: rest).drop pat.length)
    else c :: replaceFuel pat rep fuel rest

/-- Models Python `str.replace` (replace every occurrence, left to right,
non-overlapping). -/
def strReplace (s pat rep : String) : String :=
  ⟨replaceFuel pat.data rep.data s.data.length s.data⟩

/-- Is `sub` an infix of the character list? -/
def infixChars : List Char → List Char → Bool
  | sub, [] => sub.isEmpty
  | sub, c :: rest => sub.isPrefixOf (c :: rest) || infixChars sub rest

/-- Substring test, modelling Python's `in` on strings. -/
def strContains (s sub : String) : Bool :=
  infixChars sub.data s.data

/-- Kernel-reducible natural square root (largest `k` with `k * k ≤ n`). -/
def natSqrt (n : Nat) : Nat :=
  ((List.range (n + 1)).filter fun k => k * k ≤ n).foldr max 0

/-- Models `np.sqrt` on our exact value domain: NaN on NaN and on negative
inputs; exact on rationals whose numerator and denominator are perfect
squares (which covers every value the claims evaluate). -/
def npSqrt : Val → Val
  | none => none
  | some q => if q < 0 then none else some ((natSqrt q.num.toNat : ℚ) / (natSqrt q.den : ℚ))

/-- A per-run metrics dataset as read back by the aggregation script: the
month of each `ref_time` coordinate value, and data variables laid out
along `ref_time` (`vars[i].2[t]`). -/
structure AgDS where
  months : List Nat
  vars : List (String × List Val)
deriving DecidableEq

/-- The seasons present in a dataset, in xarray `groupby` order (group
labels sorted alphabetically: DJF < JJA < MAM < SON). -/
def seasonsPresent (months : List Nat) : List String :=
  ["DJF", "JJA", "MAM", "SON"].filter fun s => months.any fun m => get_season m = s

/-- The per-variable season axis of `aggregate_results`: the unconditional
mean (season = "all", from `ds.mean(dim="ref_time")`) followed by the
grouped means (`ds.groupby("season").mean(dim="ref_time")`), all with
xarray's skip-NaN default. -/
def seasonMeans (months : List Nat) (vals : List Val) : List Val :=
  nanmean vals ::
    (seasonsPresent months).map fun s =>
      nanmean ((months.zip vals).filterMap fun p =>
        if get_season p.1 = s then some p.2 else none)

/-- The renaming applied by `aggregate_results` to variance-family
variables: `VAR`→`STDE`, `var`→`std`, `MSE`→`RMSE` (Python `str.replace`
replaces every occurrence). -/
def varTransformName (n : String) : String :=
  strReplace (strReplace (strReplace n "VAR" "STDE") "var" "std") "MSE" "RMSE"

/-- Does `aggregate_results` select this variable for the square-root
post-processing (`"VAR" in d or "var" in d or "MSE" in d`)? -/
def varTransformMatch (n : String) : Bool :=
  strContains n "VAR" || strContains n "var" || strContains n "MSE"

/-- Embedding of `aggregate_results` (`workflow/scripts/verif_aggregation.py`):
concat the unconditional mean (season "all") with the per-season grouped
means, then replace every variance-family variable by its square root and
rename it — the square root is applied AFTER the averaging. Returns the
season axis labels and the output variables. -/
def aggregate_results (ds : AgDS) : List String × List (String × List Val) :=
  ("all" :: seasonsPresent ds.months,
   ds.vars.map fun v =>
     if varTransformMatch v.1 then
       (varTransformName v.1, (seasonMeans ds.months v.2).map npSqrt)
     else (v.1, seasonMeans ds.months v.2))

/-- A per-run metrics dataset as opened by `verif_plot_metrics.py`: the
`source` coordinate values, the `lead_time` coordinate values, and one data
variable laid out source-major (`data[i][j]` is the value for source `i` at
lead time `j`). -/
structure PDS where
  sources : List String
  leadTimes : List ℚ
  data : List (List Val)
deriving DecidableEq

/-- Models `keep = ~idx.duplicated(keep="first")`: true at positions whose value
has not occurred before. -/
def keepMask (seen : List ℚ) : List ℚ → List Bool
  | [] => []
  | x :: xs => (decide (x ∉ seen)) :: keepMask (x :: seen) xs

/-- Boolean indexing (`ds.isel(lead_time=keep)`). -/
def applyKeep {α : Type} (mask : List Bool) (l : List α) : List α :=
  (mask.zip l).filterMap fun p => if p.1 then some p.2 else none

/-- Embedding of `_ensure_unique_lead_time`
(`workflow/scripts/verif_plot_metrics.py`): when `lead_time` has
duplicates, keep the first occurrence of every value (along every
variable); otherwise return the dataset unchanged. -/
def ensure_unique_lead_time (d : PDS) : PDS :=
  if d.leadTimes.Nodup then d
  else
    { sources := d.sources
      leadTimes := applyKeep (keepMask [] d.leadTimes) d.leadTimes
      data := d.data.map fun row => applyKeep (keepMask [] d.leadTimes) row }

/-- Models `pd.Index(...).unique().size`: the number of distinct lead times. -/
def uniqueCount (l : List ℚ) : Nat :=
  l.dedup.length

/-- The `(dataset index, distinct-lead-time count)` candidate list built by
`_select_best_sources` for one source label, in dataset order. -/
def candidatesFrom (s : String) (i : Nat) : List PDS → List (Nat × Nat)
  | [] => []
  | d :: ds =>
    (if s ∈ d.sources then [(i, uniqueCount d.leadTimes)] else []) ++
      candidatesFrom s (i + 1) ds

/-- Python `max(candidates, key=lambda t: t[1])`: the first element with
maximal second component. -/
def argmaxFirst : List (Nat × Nat) → Option Nat
  | [] => none
  | c :: t =>
    some (t.foldl (fun b x => if x.2 > b.2 then x else b) c).1

/-- The provider `_select_best_sources` chooses for a source label. -/
def bestIdx (dfs : List PDS) (s : String) : Option Nat :=
  argmaxFirst (candidatesFrom s 0 dfs)

/-- Models `drop_sel(source=drop_src)`: keep only the rows (and their labels)
whose source label satisfies `keep`. -/
def filterSources (keep : String → Bool) (d : PDS) : PDS :=
  { sources := applyKeep (d.sources.map keep) d.sources
    leadTimes := d.leadTimes
    data := applyKeep (d.sources.map keep) d.data }

/-- The per-dataset pass of `_select_best_sources`: dataset `i` keeps a
source exactly when it is that source's best provider. -/
def selectBestAux (dfs : List PDS) (i : Nat) : List PDS → List PDS
  | [] => []
  | d :: rest =>
    filterSources (fun s => bestIdx dfs s == some i) d ::
      selectBestAux dfs (i + 1) rest

/-- Embedding of `_select_best_sources`
(`workflow/scripts/verif_plot_metrics.py`). -/
def select_best_sources (dfs : List PDS) : List PDS :=
  selectBestAux dfs 0 dfs

/-- Order-preserving union of coordinate value lists (outer join). -/
def unionLeads (ls : List (List ℚ)) : List ℚ :=
  ls.foldl (fun acc l => acc ++ l.filter fun t => ¬ acc.contains t) []

/-- A structural index lookup (first occurrence), modelling the coordinate
index used by reindexing. -/
def idxLookup (t : ℚ) : List ℚ → Option Nat
  | [] => none
  | x :: xs => if x = t then some 0 else (idxLookup t xs).map (· + 1)

/-- Reindex one data row from coordinate `oldLeads` onto `newLeads`,
filling gaps with NaN. -/
def reindexRow (oldLeads newLeads : List ℚ) (row : List Val) : List Val :=
  newLeads.map fun t =>
    match idxLookup t oldLeads with
    | some j => row.getD j none
    | none => none

/-- Models `xr.concat(dfs, dim="source", join="outer")`: the union of the
lead-time coordinates, all source rows stacked in order, reindexed onto the
union. -/
def concatSources (dfs : List PDS) : PDS :=
  let leads := unionLeads (dfs.map fun d => d.leadTimes)
  { sources := dfs.flatMap fun d => d.sources
    leadTimes := leads
    data := dfs.flatMap fun d => d.data.map fun row => reindexRow d.leadTimes leads row }

/-- The aggregation pipeline of `verif_plot_metrics.main`, steps 1–3:
deduplicate lead times, select best sources, concatenate. -/
def plotMetricsPipeline (dfs : List PDS) : PDS :=
  concatSources (select_best_sources (dfs.map ensure_unique_lead_time))

/-- The overall mean of the single variable of a combined dataset
(skip-NaN, as all later reductions). -/
def meanAll (d : PDS) : Val :=
  nanmean d.data.flatten

/-- Default dataset for index accesses. -/
def pdsDefault : PDS :=
  { sources := [], leadTimes := [], data := [] }

theorem nanmean_of_valid_ne {xs : List Val} (h : validVals xs ≠ []) :
    nanmean xs = some (rmean (validVals xs)) := by
  unfold nanmean
  split
  · exact absurd (by assumption) h
  · rfl

theorem nanvar_of_valid_ne {xs : List Val} (h : validVals xs ≠ []) :
    nanvar xs = some (rvar (validVals xs)) := by
  unfold nanvar
  split
  · exact absurd (by assumption) h
  · rfl

theorem nanmin_of_valid_ne {xs : List Val} (h : validVals xs ≠ []) :
    nanmin xs = some (rmin (validVals xs)) := by
  unfold nanmin
  split
  · exact absurd (by assumption) h
  · rfl

theorem nanmax_of_valid_ne {xs : List Val} (h : validVals xs ≠ []) :
    nanmax xs = some (rmax (validVals xs)) := by
  unfold nanmax
  split
  · exact absurd (by assumption) h
  · rfl

/-- The valid entries of the error array are exactly the differences of the
valid (both non-NaN) pairs. -/
theorem validVals_zipWith_vSub (f o : List Val) :
    validVals (List.zipWith vSub f o) = specErrs f o := by
  induction f generalizing o with
  | nil => cases o <;> rfl
  | cons x xs ih =>
    cases o with
    | nil => rfl
    | cons y ys =>
      cases x <;> cases y <;>
        simp [validVals, specErrs, validPairs, vSub, List.filterMap_cons] <;>
        simpa [validVals, specErrs, validPairs] using ih ys

/-- Valid entries commute with a NaN-preserving pointwise map. -/
theorem validVals_map (xs : List Val) (g : ℚ → ℚ) (vg : Val → Val)
    (h : ∀ v, vg v = v.map g) :
    validVals (xs.map vg) = (validVals xs).map g := by
  induction xs with
  | nil => rfl
  | cons x t ih =>
    cases x <;> simp [validVals, h, List.filterMap_cons] <;>
      simpa [validVals] using ih

theorem specErrs_ne_of_pairs_ne {f o : List Val} (h : validPairs f o ≠ []) :
    specErrs f o ≠ [] := by
  simpa [specErrs] using h

/-- C4: for every forecast/truth pair with at least one non-NaN paired
sample over the reduction dimensions, the BIAS, MSE, MAE and VAR outputs of
the error-metric function equal the corresponding plain reductions over
only the valid paired samples, and for every data array with at least one
non-NaN sample the mean, var, min, max statistics equal the plain
reductions over only its non-NaN samples — a single NaN never turns these
reductions into NaN; only the correlation (and hence R2) can be NaN, and it
is NaN exactly when there is no valid pair or a marginal variance is zero,
per the standard correlation definition. -/
theorem c4_nan_skip (f o d : List Val)
    (hp : validPairs f o ≠ []) (hd : validVals d ≠ []) :
    nanmean (List.zipWith vSub f o) = some (rmean (specErrs f o)) ∧
    nanmean ((List.zipWith vSub f o).map fun e => vMul e e) =
      some (rmean ((specErrs f o).map fun q => q * q)) ∧
    nanmean ((List.zipWith vSub f o).map vAbs) =
      some (rmean ((specErrs f o).map fun q => |q|)) ∧
    nanvar (List.zipWith vSub f o) = some (rvar (specErrs f o)) ∧
    nanmean d = some (rmean (validVals d)) ∧
    nanvar d = some (rvar (validVals d)) ∧
    nanmin d = some (rmin (validVals d)) ∧
    nanmax d = some (rmax (validVals d)) ∧
    (xrCorr f o = none ↔ pairVarProd (validPairs f o) = 0) := by
  have herr := validVals_zipWith_vSub f o
  have hne : validVals (List.zipWith vSub f o) ≠ [] := by
    rw [herr]; exact specErrs_ne_of_pairs_ne hp
  have hsq : validVals ((List.zipWith vSub f o).map fun e => vMul e e) =
      (specErrs f o).map fun q => q * q := by
    rw [validVals_map _ (fun q => q * q) _ (fun v => by cases v <;> rfl), herr]
  have habs : validVals ((List.zipWith vSub f o).map vAbs) =
      (specErrs f o).map fun q => |q| := by
    rw [validVals_map _ (fun q => |q|) _ (fun v => by cases v <;> rfl), herr]
  refine ⟨?_, ?_, ?_, ?_, nanmean_of_valid_ne hd, nanvar_of_valid_ne hd,
    nanmin_of_valid_ne hd, nanmax_of_valid_ne hd, ?_⟩
  · rw [nanmean_of_valid_ne hne, herr]
  · rw [nanmean_of_valid_ne (by rw [hsq]; simpa [specErrs] using hp), hsq]
  · rw [nanmean_of_valid_ne (by rw [habs]; simpa [specErrs] using hp), habs]
  · rw [nanvar_of_valid_ne hne, herr]
  · unfold xrCorr corrOfPairs
    simp only [hp, if_false]
    split <;> simp_all

/-- Witness for C4 at a concrete input containing NaNs. -/
theorem c4_nan_skip_witness :
    validPairs [some 1, none, some 3] [some 2, some 5, some 4] ≠ [] ∧
    validVals [none, some 6, some 2] ≠ [] ∧
    nanmean (List.zipWith vSub [some 1, none, some 3] [some 2, some 5, some 4]) =
      some (rmean (specErrs [some 1, none, some 3] [some 2, some 5, some 4])) :=
  ⟨by decide, by decide,
    (c4_nan_skip [some 1, none, some 3] [some 2, some 5, some 4]
      [none, some 6, some 2] (by decide) (by decide)).1⟩

/-- C9: the canonical `_compute_scores` (src/verification) and the older
variant (workflow/scripts/src/verification.py) return equal values for all
six metrics on floating-point inputs: on an inexact dtype the omitted
`skipna` argument defaults to skip-NaN, so BIAS, MSE and MAE coincide with
the explicit `skipna=True` calls, and VAR, CORR, R2 are textually
identical. -/
theorem c9_old_scores_refine (f o : List Val) (pre suf : String) :
    compute_scores_old true f o pre suf = compute_scores f o pre suf := by
  simp [compute_scores_old, compute_scores, scoreValuesOld, scoreValues,
    meanDefault]

theorem cast_sum_map {α : Type} (l : List α) (g : α → ℚ) :
    (((l.map g).sum : ℚ) : ℝ) = (l.map fun a => ((g a : ℚ) : ℝ)).sum := by
  induction l with
  | nil => simp
  | cons x t ih => simp only [List.map_cons, List.sum_cons, Rat.cast_add, ih]

theorem sum_sq_sub (l : List ℚ) (m : ℚ) :
    (l.map fun q => (q - m) ^ 2).sum =
      (l.map fun q => q ^ 2).sum - 2 * m * l.sum + l.length * m ^ 2 := by
  induction l with
  | nil => simp
  | cons x t ih => simp only [List.map_cons, List.sum_cons, List.length_cons, ih]; push_cast; ring

/-- Shortcut formula for the population variance. -/
theorem rvar_alt (l : List ℚ) (h : l ≠ []) :
    rvar l = rmean (l.map fun q => q ^ 2) - rmean l ^ 2 := by
  have hn : (l.length : ℚ) ≠ 0 := by
    exact_mod_cast Nat.cast_ne_zero.mpr (List.length_pos.mpr h).ne'
  unfold rvar rmean
  rw [sum_sq_sub, List.length_map]
  field_simp
  ring

theorem sFst_nonneg (pairs : List (ℚ × ℚ)) : 0 ≤ sFst pairs := by
  refine List.sum_nonneg ?_
  intro x hx
  simp only [List.mem_map] at hx
  obtain ⟨p, -, rfl⟩ := hx
  positivity

theorem sSnd_nonneg (pairs : List (ℚ × ℚ)) : 0 ≤ sSnd pairs := by
  refine List.sum_nonneg ?_
  intro x hx
  simp only [List.mem_map] at hx
  obtain ⟨p, -, rfl⟩ := hx
  positivity

theorem pairCov_eq (pairs : List (ℚ × ℚ)) :
    pairCov pairs = sCross pairs / pairs.length := by
  simp [pairCov, rmean, sCross]

theorem pairVarProd_eq (pairs : List (ℚ × ℚ)) :
    pairVarProd pairs = sFst pairs * sSnd pairs / (pairs.length : ℚ) ^ 2 := by
  simp only [pairVarProd, rvar, sFst, sSnd, List.map_map, List.length_map,
    Function.comp_def]
  ring

theorem pearsonCorr_eq_cast (pairs : List (ℚ × ℚ)) (hp : pairs ≠ []) :
    pearsonCorr pairs =
      if sFst pairs = 0 ∨ sSnd pairs = 0 then none
      else some (((sCross pairs : ℚ) : ℝ) /
        (Real.sqrt ((sFst pairs : ℚ) : ℝ) * Real.sqrt ((sSnd pairs : ℚ) : ℝ))) := by
  have hmx : ((List.map (fun p : ℚ × ℚ => (p.1 : ℝ)) pairs).sum / (pairs.length : ℝ)) =
      ((rmean (pairs.map Prod.fst) : ℚ) : ℝ) := by
    unfold rmean
    push_cast
    simp [List.map_map, Function.comp_def]
  have hmy : ((List.map (fun p : ℚ × ℚ => (p.2 : ℝ)) pairs).sum / (pairs.length : ℝ)) =
      ((rmean (pairs.map Prod.snd) : ℚ) : ℝ) := by
    unfold rmean
    push_cast
    simp [List.map_map, Function.comp_def]
  have hxx : (List.map (fun p : ℚ × ℚ =>
        ((p.1 : ℝ) - ((rmean (pairs.map Prod.fst) : ℚ) : ℝ)) ^ 2) pairs).sum =
      ((sFst pairs : ℚ) : ℝ) := by
    unfold sFst
    rw [cast_sum_map pairs (fun p => (p.1 - rmean (pairs.map Prod.fst)) ^ 2)]
    refine congrArg List.sum (List.map_congr_left ?_)
    intro p _
    push_cast
    ring
  have hyy : (List.map (fun p : ℚ × ℚ =>
        ((p.2 : ℝ) - ((rmean (pairs.map Prod.snd) : ℚ) : ℝ)) ^ 2) pairs).sum =
      ((sSnd pairs : ℚ) : ℝ) := by
    unfold sSnd
    rw [cast_sum_map pairs (fun p => (p.2 - rmean (pairs.map Prod.snd)) ^ 2)]
    refine congrArg List.sum (List.map_congr_left ?_)
    intro p _
    push_cast
    ring
  have hxy : (List.map (fun p : ℚ × ℚ =>
        ((p.1 : ℝ) - ((rmean (pairs.map Prod.fst) : ℚ) : ℝ)) *
        ((p.2 : ℝ) - ((rmean (pairs.map Prod.snd) : ℚ) : ℝ))) pairs).sum =
      ((sCross pairs : ℚ) : ℝ) := by
    unfold sCross
    rw [cast_sum_map pairs (fun p =>
      (p.1 - rmean (pairs.map Prod.fst)) * (p.2 - rmean (pairs.map Prod.snd)))]
    refine congrArg List.sum (List.map_congr_left ?_)
    intro p _
    push_cast
    ring
  rw [pearsonCorr, if_neg hp]
  simp only [hmx, hmy, hxx, hyy, hxy, Rat.cast_eq_zero]

theorem corrOfPairs_eq_pearson (pairs : List (ℚ × ℚ)) :
    CorrRep.toOptReal (corrOfPairs pairs) = pearsonCorr pairs := by
  by_cases hp : pairs = []
  · subst hp
    rfl
  · have hlen : 0 < pairs.length := List.length_pos.mpr hp
    have hnq : ((pairs.length : ℚ)) ≠ 0 := Nat.cast_ne_zero.mpr hlen.ne'
    have hnr : ((pairs.length : ℝ)) ≠ 0 := Nat.cast_ne_zero.mpr hlen.ne'
    rw [pearsonCorr_eq_cast pairs hp]
    unfold corrOfPairs
    rw [if_neg hp]
    have hvp0 : pairVarProd pairs = 0 ↔ (sFst pairs = 0 ∨ sSnd pairs = 0) := by
      rw [pairVarProd_eq, div_eq_zero_iff, mul_eq_zero]
      simp [hnq]
    by_cases hz : sFst pairs = 0 ∨ sSnd pairs = 0
    · rw [if_pos (hvp0.mpr hz), if_pos hz]
      rfl
    · rw [if_neg (fun h => hz (hvp0.mp h)), if_neg hz]
      push_neg at hz
      have hf0 : (0 : ℝ) < ((sFst pairs : ℚ) : ℝ) := by
        have := sFst_nonneg pairs
        have : (0 : ℝ) ≤ ((sFst pairs : ℚ) : ℝ) := by exact_mod_cast this
        rcases this.lt_or_eq with h | h
        · exact h
        · exact absurd (by exact_mod_cast h.symm) hz.1
      have hs0 : (0 : ℝ) < ((sSnd pairs : ℚ) : ℝ) := by
        have := sSnd_nonneg pairs
        have : (0 : ℝ) ≤ ((sSnd pairs : ℚ) : ℝ) := by exact_mod_cast this
        rcases this.lt_or_eq with h | h
        · exact h
        · exact absurd (by exact_mod_cast h.symm) hz.2
      have hcov : ((pairCov pairs : ℚ) : ℝ) =
          ((sCross pairs : ℚ) : ℝ) / (pairs.length : ℝ) := by
        rw [pairCov_eq]
        push_cast
        ring
      have hvpR : ((pairVarProd pairs : ℚ) : ℝ) =
          ((sFst pairs : ℚ) : ℝ) * ((sSnd pairs : ℚ) : ℝ) / (pairs.length : ℝ) ^ 2 := by
        rw [pairVarProd_eq]
        push_cast
        ring
      have hsqrt : Real.sqrt (((sFst pairs : ℚ) : ℝ) * ((sSnd pairs : ℚ) : ℝ) /
            (pairs.length : ℝ) ^ 2) =
          Real.sqrt ((sFst pairs : ℚ) : ℝ) * Real.sqrt ((sSnd pairs : ℚ) : ℝ) /
            (pairs.length : ℝ) := by
        have hT : (0 : ℝ) ≤ Real.sqrt ((sFst pairs : ℚ) : ℝ) *
            Real.sqrt ((sSnd pairs : ℚ) : ℝ) / (pairs.length : ℝ) := by
          positivity
        have hsq : ((sFst pairs : ℚ) : ℝ) * ((sSnd pairs : ℚ) : ℝ) /
            (pairs.length : ℝ) ^ 2 =
            (Real.sqrt ((sFst pairs : ℚ) : ℝ) * Real.sqrt ((sSnd pairs : ℚ) : ℝ) /
              (pairs.length : ℝ)) ^ 2 := by
          rw [div_pow, mul_pow, Real.sq_sqrt hf0.le, Real.sq_sqrt hs0.le]
        rw [hsq, Real.sqrt_sq hT]
      show some (((pairCov pairs : ℚ) : ℝ) / Real.sqrt ((pairVarProd pairs : ℚ) : ℝ)) = _
      rw [hcov, hvpR, hsqrt]
      have h1 : Real.sqrt ((sFst pairs : ℚ) : ℝ) ≠ 0 := by positivity
      have h2 : Real.sqrt ((sSnd pairs : ℚ) : ℝ) ≠ 0 := by positivity
      congr 1
      field_simp

theorem xrCorrSq_eq_pearson_sq (f o : List Val) :
    (xrCorrSq f o).map (fun q => (q : ℝ)) =
      (pearsonCorr (validPairs f o)).map fun r => r ^ 2 := by
  set pairs := validPairs f o with hpdef
  by_cases hp : pairs = []
  · unfold xrCorrSq xrCorr corrOfPairs
    rw [← hpdef, if_pos hp, pearsonCorr, if_pos hp]
    rfl
  · have hlen : 0 < pairs.length := List.length_pos.mpr hp
    have hnq : ((pairs.length : ℚ)) ≠ 0 := Nat.cast_ne_zero.mpr hlen.ne'
    have hnr : ((pairs.length : ℝ)) ≠ 0 := Nat.cast_ne_zero.mpr hlen.ne'
    have hvp0 : pairVarProd pairs = 0 ↔ (sFst pairs = 0 ∨ sSnd pairs = 0) := by
      rw [pairVarProd_eq, div_eq_zero_iff, mul_eq_zero]
      simp [hnq]
    unfold xrCorrSq xrCorr corrOfPairs
    rw [← hpdef, if_neg hp, pearsonCorr_eq_cast pairs hp]
    by_cases hz : sFst pairs = 0 ∨ sSnd pairs = 0
    · rw [if_pos (hvp0.mpr hz), if_pos hz]
      rfl
    · rw [if_neg (fun h => hz (hvp0.mp h)), if_neg hz]
      push_neg at hz
      have hf0 : ((sFst pairs : ℚ) : ℝ) ≠ 0 := by
        exact_mod_cast hz.1
      have hs0 : ((sSnd pairs : ℚ) : ℝ) ≠ 0 := by
        exact_mod_cast hz.2
      have hfpos : (0 : ℝ) ≤ ((sFst pairs : ℚ) : ℝ) := by
        exact_mod_cast sFst_nonneg pairs
      have hspos : (0 : ℝ) ≤ ((sSnd pairs : ℚ) : ℝ) := by
        exact_mod_cast sSnd_nonneg pairs
      show some (((pairCov pairs ^ 2 / pairVarProd pairs : ℚ) : ℝ)) = _
      congr 1
      rw [pairCov_eq, pairVarProd_eq]
      push_cast
      rw [div_pow, div_pow, mul_pow, Real.sq_sqrt hfpos, Real.sq_sqrt hspos]
      field_simp

/-- C5: the error-metric function returns exactly the six metrics, each
keyed `{prefix}{METRIC}{suffix}`, with `BIAS` the mean error, `MSE` the
mean squared error, `MAE` the mean absolute error (first conjunct, the
exact output list); `VAR` is the variance of the error (shortcut-formula
characterisation, second conjunct); `CORR` denotes the standard Pearson
correlation coefficient of forecast and truth over the same samples (third
conjunct); and `R2` denotes its square (fourth conjunct). -/
theorem c5_score_formulas (f o : List Val) (pre suf : String) :
    compute_scores f o pre suf =
      [(pre ++ "BIAS" ++ suf, .num (nanmean (List.zipWith vSub f o))),
       (pre ++ "MSE" ++ suf,
         .num (nanmean ((List.zipWith vSub f o).map fun e => vMul e e))),
       (pre ++ "MAE" ++ suf, .num (nanmean ((List.zipWith vSub f o).map vAbs))),
       (pre ++ "VAR" ++ suf, .num (nanvar (List.zipWith vSub f o))),
       (pre ++ "CORR" ++ suf, .corr (xrCorr f o)),
       (pre ++ "R2" ++ suf, .num (xrCorrSq f o))] ∧
    (specErrs f o ≠ [] →
      nanvar (List.zipWith vSub f o) =
        some (rmean ((specErrs f o).map fun q => q ^ 2) - rmean (specErrs f o) ^ 2)) ∧
    CorrRep.toOptReal (xrCorr f o) = pearsonCorr (validPairs f o) ∧
    (xrCorrSq f o).map (fun q => (q : ℝ)) =
      (pearsonCorr (validPairs f o)).map fun r => r ^ 2 := by
  refine ⟨rfl, ?_, corrOfPairs_eq_pearson (validPairs f o), xrCorrSq_eq_pearson_sq f o⟩
  intro h
  have herr := validVals_zipWith_vSub f o
  rw [nanvar_of_valid_ne (by rw [herr]; exact h), herr, rvar_alt _ h]

/-- Witness for C5 at a concrete input. -/
theorem c5_score_formulas_witness :
    specErrs [some 1, some 3] [some 0, some 1] ≠ [] ∧
    nanvar (List.zipWith vSub [some 1, some 3] [some 0, some 1]) =
      some (rmean ((specErrs [some 1, some 3] [some 0, some 1]).map fun q => q ^ 2) -
        rmean (specErrs [some 1, some 3] [some 0, some 1]) ^ 2) :=
  ⟨by decide,
    (c5_score_formulas [some 1, some 3] [some 0, some 1] "T_2M." "").2.1 (by decide)⟩

/-- Counterexample to C2: for the accumulated series [2, 3, 1] the code
yields NaN at the first lead time, not the defined non-negative value the
claim requires, and differs from the spec-modelled rule. -/
theorem c2_counterexample :
    (disaggregate_tot_prec [some 2, some 3, some 1]).head? = some none ∧
    disaggregate_tot_prec [some 2, some 3, some 1] = [none, some 1, some 0] ∧
    disaggregate_tot_prec [some 2, some 3, some 1] ≠
      disaggregate_spec [some 2, some 3, some 1] := by
  refine ⟨rfl, ?_, ?_⟩
  · simp [disaggregate_tot_prec, diffLeadTime, fillna0, clipMin0, vSub, max_def]
    norm_num
  · simp [disaggregate_tot_prec, disaggregate_spec, diffLeadTime, fillna0,
      clipMin0, vSub, max_def]

theorem zipWith_vSub_some {as bs : List Val}
    (ha : ∀ a ∈ as, ∃ q : ℚ, a = some q) (hb : ∀ b ∈ bs, ∃ q : ℚ, b = some q) :
    ∀ w ∈ List.zipWith vSub as bs, ∃ q : ℚ, w = some q := by
  induction as generalizing bs with
  | nil => simp
  | cons a t ih =>
    cases bs with
    | nil => simp
    | cons b tb =>
      intro w hw
      rw [List.zipWith_cons_cons, List.mem_cons] at hw
      rcases hw with rfl | hw
      · obtain ⟨qa, rfl⟩ := ha a (List.mem_cons_self a t)
        obtain ⟨qb, rfl⟩ := hb b (List.mem_cons_self b tb)
        exact ⟨qa - qb, rfl⟩
      · exact ih (fun x hx => ha x (List.mem_cons_of_mem a hx))
          (fun x hx => hb x (List.mem_cons_of_mem b hx)) w hw

/-- C2 (amended): the disaggregation converts the accumulated TOT_PREC to
per-interval increments by differencing along lead_time after filling
missing values with zero, pads the FIRST lead time with a missing value
(NaN) — not zero — and clips at zero, so the first lead time of the
disaggregated TOT_PREC is always missing while every later lead time is a
defined non-negative increment. -/
theorem c2_disaggregation_pads_nan (xs : List Val) :
    (disaggregate_tot_prec xs).head? = some none ∧
    (disaggregate_tot_prec xs).tail = (diffLeadTime (fillna0 xs)).map clipMin0 ∧
    ∀ v ∈ (disaggregate_tot_prec xs).tail, ∃ q : ℚ, v = some q ∧ 0 ≤ q := by
  refine ⟨rfl, rfl, ?_⟩
  intro v hv
  have hfill : ∀ a ∈ fillna0 xs, ∃ q : ℚ, a = some q := by
    intro a ha
    obtain ⟨w, -, rfl⟩ := List.mem_map.mp ha
    exact ⟨w.getD 0, rfl⟩
  simp only [disaggregate_tot_prec, List.map_cons, List.tail_cons] at hv
  obtain ⟨w, hw, rfl⟩ := List.mem_map.mp hv
  obtain ⟨q, rfl⟩ := zipWith_vSub_some
    (fun a ha => hfill a ((List.tail_sublist (fillna0 xs)).subset ha)) hfill w hw
  exact ⟨max q 0, rfl, le_max_right q 0⟩

/-- Witness for C2 (amended) at a concrete input. -/
theorem c2_disaggregation_pads_nan_witness :
    some (1 : ℚ) ∈ (disaggregate_tot_prec [some 2, some 3, some 1]).tail ∧
    ∃ q : ℚ, some (1 : ℚ) = some q ∧ 0 ≤ q := by
  have hmem : some (1 : ℚ) ∈ (disaggregate_tot_prec [some 2, some 3, some 1]).tail := by
    simp [disaggregate_tot_prec, diffLeadTime, fillna0, clipMin0, vSub, max_def]
    norm_num
  exact ⟨hmem, (c2_disaggregation_pads_nan [some 2, some 3, some 1]).2.2 (some 1) hmem⟩

/-- The built-in "all" polygon contains exactly the points of the
half-open rectangle 1.5–16 °E, 43–49.5 °N (even-odd crossing rule). -/
theorem containsXY_allRegion (x y : ℚ) :
    (containsXY allRegionPolygon x y = true) ↔
      (3 / 2 ≤ x ∧ x < 16 ∧ 43 ≤ y ∧ y < 99 / 2) := by
  have e2 : (16 : ℚ) + (16 - 16) * (y - 43) / (99 / 2 - 43) = 16 := by ring
  have e4 : (3 / 2 : ℚ) + (3 / 2 - 3 / 2) * (y - 99 / 2) / (43 - 99 / 2) = 3 / 2 := by
    ring
  simp only [containsXY, allRegionPolygon, List.tail_cons, List.zip_cons_cons,
    List.zip_nil_right, List.foldl_cons, List.foldl_nil, edgeCross]
  rw [e2, e4]
  rcases lt_or_le y 43 with h1 | h1 <;> rcases lt_or_le y (99 / 2 : ℚ) with h2 | h2 <;>
    rcases lt_or_le x (3 / 2 : ℚ) with h3 | h3 <;> rcases lt_or_le x 16 with h4 | h4 <;>
    simp_all [← not_lt] <;> linarith

/-- Boolean form of the "all"-rectangle characterisation. -/
theorem containsXY_allRegion_bool (x y : ℚ) :
    containsXY allRegionPolygon x y =
      (decide (3 / 2 ≤ x) && decide (x < 16) && decide (43 ≤ y) &&
        decide (y < 99 / 2)) := by
  rw [Bool.eq_iff_iff]
  simp [containsXY_allRegion, and_assoc]

theorem dictInsert_head (t : List (String × List Polygon)) (pa : List Polygon)
    (k : String) (v : List Polygon) (hk : k ≠ "all") :
    ∃ rest, dictInsert (("all", pa) :: t) k v = ("all", pa) :: rest := by
  unfold dictInsert
  split
  · refine ⟨t.map fun p => if p.1 = k then (k, v) else p, ?_⟩
    simp only [List.map_cons]
    rw [if_neg fun h => hk h.symm]
  · exact ⟨t ++ [(k, v)], by simp⟩

theorem buildRegions_head (files : List (String × List Polygon))
    (h : ∀ f ∈ files, f.1 ≠ "all") :
    ∃ rest, buildRegions files = ("all", [allRegionPolygon]) :: rest := by
  unfold buildRegions
  suffices hgen : ∀ (fs : List (String × List Polygon)) (acc : List (String × List Polygon))
      (pa : List Polygon) (t : List (String × List Polygon)),
      (∀ f ∈ fs, f.1 ≠ "all") → acc = ("all", pa) :: t →
      ∃ rest, fs.foldl (fun a f => dictInsert a f.1 f.2) acc = ("all", pa) :: rest by
    exact hgen files _ [allRegionPolygon] [] h rfl
  intro fs
  induction fs with
  | nil => exact fun acc pa t _ hacc => ⟨t, by simpa using hacc⟩
  | cons f ft ih =>
    intro acc pa t hf hacc
    subst hacc
    obtain ⟨r1, hr1⟩ := dictInsert_head t pa f.1 f.2
      (hf f (List.mem_cons_self f ft))
    simpa [hr1] using ih _ pa r1 (fun g hg => hf g (List.mem_cons_of_mem f hg)) rfl

/-- C3 (amended): passing `regions=None` (the default) to `verify` raises a
`TypeError` while building the masks, so no mask exists at all; when a
(possibly empty) list of region files none of which is named "all" is
supplied, the built-in "all" region is present and its mask is `True`
exactly at the truth-grid points inside the rectangle 1.5–16 °E,
43–49.5 °N — not at every grid point. -/
theorem c3_all_region_mask :
    (∀ fcst obs fl ol, verify fcst obs fl ol none = .error .typeError) ∧
    ∀ (files : List (String × List Polygon)) (pts : List Pt),
      (∀ f ∈ files, f.1 ≠ "all") →
      ("all", pts.map fun p => decide (3 / 2 ≤ p.lon) && decide (p.lon < 16) &&
          decide (43 ≤ p.lat) && decide (p.lat < 99 / 2)) ∈
        get_masks (buildRegions files) pts := by
  refine ⟨fun fcst obs fl ol => rfl, ?_⟩
  intro files pts h
  obtain ⟨rest, hb⟩ := buildRegions_head files h
  rw [hb]
  unfold get_masks
  rw [List.map_cons]
  have hmask : mask_from_polygons [allRegionPolygon] pts =
      pts.map fun p => decide (3 / 2 ≤ p.lon) && decide (p.lon < 16) &&
        decide (43 ≤ p.lat) && decide (p.lat < 99 / 2) := by
    unfold mask_from_polygons
    refine List.map_congr_left fun p _ => ?_
    simp [containsXY_allRegion_bool]
  rw [hmask]
  exact List.mem_cons_self _ _

/-- Witness for C3 (amended) at a concrete region list and grid. -/
theorem c3_all_region_mask_witness :
    ("all", [true]) ∈ get_masks (buildRegions [("alps", [])]) [⟨8, 46⟩] := by
  have h := c3_all_region_mask.2 [("alps", [])] [⟨8, 46⟩]
    (by intro f hf; rw [List.mem_singleton] at hf; subst hf; decide)
  norm_num at h
  exact h

/-- Counterexample to C3: with no explicit regions (`regions=None`,
the default) `verify` raises a `TypeError` instead of producing any mask,
and even the mask the "all" region would produce is not `True` at every
grid point — it is `False` at (0 °E, 0 °N). -/
theorem c3_counterexample :
    verify ⟨[0], [⟨8, 46⟩], [("T_2M", [[some 280]])]⟩
      ⟨[0], [⟨8, 46⟩], [("T_2M", [[some 280]])]⟩ "fcst" "truth" none =
      .error .typeError ∧
    get_masks (buildRegions []) [⟨8, 46⟩, ⟨0, 0⟩] = [("all", [true, false])] := by
  constructor
  · rfl
  · simp [get_masks, buildRegions, mask_from_polygons, containsXY_allRegion_bool]
    norm_num

/-- C1 (amended): `verify` aligns forecast and truth on their shared
temporal coordinate with an inner join (the retained coordinate values are
exactly the intersection), but when the intersection is empty it does NOT
fail — no `AlignmentError` exists anywhere in the code — and instead
returns a result whose aligned coordinate axis is empty. -/
theorem c1_inner_align_no_failure (fcst obs : VDat) (fl ol : String)
    (files : List (String × List Polygon)) :
    ∃ r, verify fcst obs fl ol (some files) = Except.ok r ∧
      r.times = interTimes fcst.times obs.times ∧
      (alignInner fcst obs).1.times = interTimes fcst.times obs.times ∧
      (alignInner fcst obs).2.times = interTimes fcst.times obs.times :=
  ⟨_, rfl, rfl, rfl, rfl⟩

/-- Counterexample to C1: two datasets with disjoint time coordinates —
the intersection is empty, yet `verify` returns a result (no failure). -/
theorem c1_counterexample :
    interTimes ([0] : List ℚ) [1] = [] ∧
    (verify ⟨[0], [⟨8, 46⟩], [("T_2M", [[some 280]])]⟩
      ⟨[1], [⟨8, 46⟩], [("T_2M", [[some 280]])]⟩ "fcst" "truth"
      (some [])).isOk = true := by
  exact ⟨by decide, rfl⟩

theorem lookupVar_selTimes (n : String) (d : VDat) (ts : List ℚ) :
    lookupVar n (selTimes d ts).vars = none ↔ lookupVar n d.vars = none := by
  simp [lookupVar, selTimes, List.find?_map, Function.comp_def]

theorem verifyLoop_drop (masks : List (String × List Bool))
    (oaVars : List (String × List (List Val))) (fl ol p : String)
    (hmiss : lookupVar p oaVars = none) :
    ∀ fvars : List (String × List (List Val)),
      (verifyLoop masks oaVars fl ol (fvars.filter fun v => v.1 != p)).1 =
        (verifyLoop masks oaVars fl ol fvars).1 ∧
      (p ∈ fvars.map Prod.fst →
        skipWarning p ∈ (verifyLoop masks oaVars fl ol fvars).2) := by
  intro fvars
  induction fvars with
  | nil => simp
  | cons pv rest ih =>
    by_cases hpv : pv.1 = p
    · have hfilter : ((pv :: rest).filter fun v => v.1 != p) =
          rest.filter fun v => v.1 != p := by
        simp [List.filter_cons, hpv]
      have hlook : lookupVar pv.1 oaVars = none := by rw [hpv]; exact hmiss
      constructor
      · rw [hfilter, ih.1]
        simp [verifyLoop, hlook]
      · intro _
        simp [verifyLoop, hlook, hpv, hmiss]
    · have hfilter : ((pv :: rest).filter fun v => v.1 != p) =
          pv :: rest.filter fun v => v.1 != p := by
        simp [List.filter_cons, hpv]
      rw [hfilter]
      have hrest : p ∈ rest.map Prod.fst → skipWarning p ∈
          (verifyLoop masks oaVars fl ol rest).2 := ih.2
      constructor
      · simp only [verifyLoop]
        cases hl : lookupVar pv.1 oaVars with
        | none => simpa using ih.1
        | some orows => simp only [hl]; rw [ih.1]
      · intro hmem
        have hm : p ∈ rest.map Prod.fst := by
          rcases List.mem_map.mp hmem with ⟨v, hv, rfl⟩
          rcases List.mem_cons.mp hv with rfl | hv
          · exact absurd rfl hpv
          · exact List.mem_map_of_mem Prod.fst hv
        simp only [verifyLoop]
        cases hl : lookupVar pv.1 oaVars with
        | none => simp only [hl]; exact List.mem_cons_of_mem _ (hrest hm)
        | some orows => simp only [hl]; exact hrest hm

/-- C8: a physical parameter present in the forecast but absent from the
truth makes `verify` log the skip warning and continue: the run still
succeeds, and its output variables (and time axis) are exactly those of the
same run with the missing parameter removed from the forecast — a partial
result over the remaining parameters. -/
theorem c8_missing_param_skip (fcst obs : VDat) (fl ol : String)
    (files : List (String × List Polygon)) (p : String)
    (hin : p ∈ fcst.vars.map Prod.fst)
    (hmiss : lookupVar p obs.vars = none) :
    ∃ r r', verify fcst obs fl ol (some files) = Except.ok r ∧
      verify (dropParam p fcst) obs fl ol (some files) = Except.ok r' ∧
      skipWarning p ∈ r.warnings ∧ r.vars = r'.vars ∧ r.times = r'.times := by
  have hm : ∀ ts, lookupVar p (selTimes obs ts).vars = none :=
    fun ts => (lookupVar_selTimes p obs ts).mpr hmiss
  refine ⟨_, _, rfl, rfl, ?_, ?_, rfl⟩
  · apply (verifyLoop_drop _ _ fl ol p (hm _) _).2
    simpa [selTimes, List.map_map, Function.comp_def] using hin
  · show (verifyLoop _ _ fl ol (selTimes fcst _).vars).1 = _
    have hfa : (selTimes (dropParam p fcst) (interTimes fcst.times obs.times)).vars =
        ((selTimes fcst (interTimes fcst.times obs.times)).vars).filter
          fun v => v.1 != p := by
      simp [selTimes, dropParam, List.filter_map, Function.comp_def]
    simp only [dropParam] at hfa ⊢
    rw [hfa]
    exact (verifyLoop_drop _ _ fl ol p (hm _) _).1.symm

/-- Witness for C8 at a concrete pair of datasets. -/
theorem c8_missing_param_skip_witness :
    ∃ r r',
      verify ⟨[0], [⟨8, 46⟩], [("T_2M", [[some 280]]), ("U_10M", [[some 5]])]⟩
        ⟨[0], [⟨8, 46⟩], [("T_2M", [[some 281]])]⟩ "fcst" "truth" (some []) =
        Except.ok r ∧
      verify (dropParam "U_10M"
          ⟨[0], [⟨8, 46⟩], [("T_2M", [[some 280]]), ("U_10M", [[some 5]])]⟩)
        ⟨[0], [⟨8, 46⟩], [("T_2M", [[some 281]])]⟩ "fcst" "truth" (some []) =
        Except.ok r' ∧
      skipWarning "U_10M" ∈ r.warnings ∧ r.vars = r'.vars ∧ r.times = r'.times :=
  c8_missing_param_skip _ _ "fcst" "truth" [] "U_10M" (by decide) (by decide)

theorem nanmean_single (q : ℚ) : nanmean [some q] = some q := by
  simp [nanmean, validVals, rmean]

theorem seasonsPresent_single (m : Nat) : seasonsPresent [m] = [get_season m] := by
  unfold seasonsPresent get_season
  simp only [List.any_cons, List.any_nil, Bool.or_false]
  by_cases h1 : m ∈ [12, 1, 2]
  · simp only [h1, ite_true]
    decide
  · simp only [h1, ite_false]
    by_cases h2 : m ∈ [3, 4, 5]
    · simp only [h2, ite_true]
      decide
    · simp only [h2, ite_false]
      by_cases h3 : m ∈ [6, 7, 8]
      · simp only [h3, ite_true]
        decide
      · simp only [h3, ite_false]
        decide

theorem seasonMeans_single (m : Nat) (v : Val) :
    seasonMeans [m] [v] = [nanmean [v], nanmean [v]] := by
  unfold seasonMeans
  rw [seasonsPresent_single]
  simp

/-- C6: in aggregation every variable whose name contains VAR/var/MSE is
replaced by the square root of its STRATIFIED AVERAGE and renamed via
VAR→STDE, var→std, MSE→RMSE (first conjunct), other variables are averaged
unchanged (second conjunct); the square root is applied after the
averaging, so aggregating a single result gives
`RMSE = sqrt(MSE)` at every season label including "all" (third conjunct);
concretely, averaging MSE values 1 and 49 yields RMSE `sqrt(25) = 5` and
not the mean of the square roots, 4 (fourth and fifth conjuncts). -/
theorem c6_rmse_after_averaging :
    (∀ (ds : AgDS) (n : String) (vals : List Val), (n, vals) ∈ ds.vars →
        varTransformMatch n = true →
        (varTransformName n, (seasonMeans ds.months vals).map npSqrt) ∈
          (aggregate_results ds).2) ∧
    (∀ (ds : AgDS) (n : String) (vals : List Val), (n, vals) ∈ ds.vars →
        varTransformMatch n = false →
        (n, seasonMeans ds.months vals) ∈ (aggregate_results ds).2) ∧
    (∀ (m : Nat) (n : String) (q : ℚ), varTransformMatch n = true →
        (aggregate_results ⟨[m], [(n, [some q])]⟩).2 =
          [(varTransformName n, [npSqrt (some q), npSqrt (some q)])]) ∧
    (aggregate_results ⟨[1, 1], [("X.MSE", [some 1, some 49])]⟩).2 =
      [("X.RMSE", [some 5, some 5])] ∧
    nanmean ([some 1, some 49].map npSqrt) = some 4 := by
  refine ⟨?_, ?_, ?_, ?_, ?_⟩
  · intro ds n vals hmem hmatch
    have := List.mem_map_of_mem
      (fun v : String × List Val =>
        if varTransformMatch v.1 then
          (varTransformName v.1, (seasonMeans ds.months v.2).map npSqrt)
        else (v.1, seasonMeans ds.months v.2)) hmem
    simpa [aggregate_results, hmatch] using this
  · intro ds n vals hmem hmatch
    have := List.mem_map_of_mem
      (fun v : String × List Val =>
        if varTransformMatch v.1 then
          (varTransformName v.1, (seasonMeans ds.months v.2).map npSqrt)
        else (v.1, seasonMeans ds.months v.2)) hmem
    simpa [aggregate_results, hmatch] using this
  · intro m n q hmatch
    simp [aggregate_results, hmatch, seasonMeans_single, nanmean_single]
  · have h49 : seasonsPresent [1, 1] = ["DJF"] := by decide
    have hmean : nanmean [some 1, some 49] = some 25 := by
      simp [nanmean, validVals, rmean]
      norm_num
    have hsqrt25 : npSqrt (some 25) = some 5 := by
      have h1 : natSqrt 25 = 5 := by decide
      have h2 : natSqrt 1 = 1 := by decide
      have hnum : (25 : ℚ).num = 25 := rfl
      have hden : (25 : ℚ).den = 1 := rfl
      simp [npSqrt, hnum, hden, h1, h2]
    have hmatch : varTransformMatch "X.MSE" = true := by decide
    have hname : varTransformName "X.MSE" = "X.RMSE" := by decide
    have hfm : List.filterMap
        (fun p : Nat × Val => if get_season p.1 = "DJF" then some p.2 else none)
        [(1, some 1), (1, some 49)] = [some 1, some 49] := by decide
    simp only [aggregate_results, List.map_cons, List.map_nil, hmatch, if_true,
      hname, seasonMeans, h49, List.zip_cons_cons, List.zip_nil_right, hfm]
    rw [hmean, hsqrt25]
  · have hs1 : npSqrt (some 1) = some 1 := by
      have h1 : natSqrt 1 = 1 := by decide
      simp [npSqrt, h1]
    have hs49 : npSqrt (some 49) = some 7 := by
      have h1 : natSqrt 49 = 7 := by decide
      have h2 : natSqrt 1 = 1 := by decide
      have hnum : (49 : ℚ).num = 49 := rfl
      have hden : (49 : ℚ).den = 1 := rfl
      simp [npSqrt, hnum, hden, h1, h2]
    rw [List.map_cons, List.map_cons, List.map_nil, hs1, hs49]
    simp [nanmean, validVals, rmean]
    norm_num

/-- Witness for C6 at a concrete single-initialization dataset. -/
theorem c6_rmse_after_averaging_witness :
    (aggregate_results ⟨[1], [("X.MSE", [some 9])]⟩).2 =
      [(varTransformName "X.MSE", [npSqrt (some 9), npSqrt (some 9)])] :=
  c6_rmse_after_averaging.2.2.1 1 "X.MSE" 9 (by decide)

theorem keepMask_length (l : List ℚ) : ∀ seen, (keepMask seen l).length = l.length := by
  induction l with
  | nil => intro seen; rfl
  | cons x xs ih => intro seen; simp [keepMask, ih]

theorem applyKeep_length_eq {α β : Type} :
    ∀ (m : List Bool) (l1 : List α) (l2 : List β), l1.length = l2.length →
      (applyKeep m l1).length = (applyKeep m l2).length := by
  intro m
  induction m with
  | nil => intro l1 l2 _; rfl
  | cons b mt ih =>
    intro l1 l2 h
    cases l1 with
    | nil => cases l2 with
      | nil => rfl
      | cons y ys => simp at h
    | cons x xs =>
      cases l2 with
      | nil => simp at h
      | cons y ys =>
        simp only [List.length_cons, Nat.succ.injEq] at h
        cases b <;> simp [applyKeep, List.zip_cons_cons, List.filterMap_cons] <;>
          simpa [applyKeep] using ih xs ys h

theorem applyKeep_all_true {α : Type} :
    ∀ (m : List Bool) (l : List α), (∀ b ∈ m, b = true) → m.length = l.length →
      applyKeep m l = l := by
  intro m
  induction m with
  | nil =>
    intro l _ hlen
    cases l with
    | nil => rfl
    | cons x xs => simp at hlen
  | cons b mt ih =>
    intro l hb hlen
    cases l with
    | nil => simp at hlen
    | cons x xs =>
      have hbt : b = true := hb b (List.mem_cons_self b mt)
      subst hbt
      simp only [List.length_cons, Nat.succ.injEq] at hlen
      simp [applyKeep, List.zip_cons_cons, List.filterMap_cons]
      simpa [applyKeep] using ih xs (fun c hc => hb c (List.mem_cons_of_mem _ hc)) hlen

theorem applyKeep_all_false {α : Type} :
    ∀ (m : List Bool) (l : List α), (∀ b ∈ m, b = false) → applyKeep m l = [] := by
  intro m
  induction m with
  | nil => intro l _; cases l <;> rfl
  | cons b mt ih =>
    intro l hb
    cases l with
    | nil => rfl
    | cons x xs =>
      have hbf : b = false := hb b (List.mem_cons_self b mt)
      subst hbf
      simp [applyKeep, List.zip_cons_cons, List.filterMap_cons]
      simpa [applyKeep] using ih xs fun c hc => hb c (List.mem_cons_of_mem _ hc)

theorem applyKeep_map {α : Type} (f : α → Bool) :
    ∀ l : List α, applyKeep (l.map f) l = l.filter f := by
  intro l
  induction l with
  | nil => rfl
  | cons x xs ih =>
    cases hf : f x <;>
      simp [applyKeep, List.zip_cons_cons, List.filterMap_cons, hf, List.filter_cons] <;>
      simpa [applyKeep] using ih

theorem keepMask_filter_nodup :
    ∀ (l seen : List ℚ), (applyKeep (keepMask seen l) l).Nodup ∧
      ∀ x ∈ applyKeep (keepMask seen l) l, x ∉ seen := by
  intro l
  induction l with
  | nil => intro seen; exact ⟨List.nodup_nil, by simp [applyKeep, keepMask]⟩
  | cons x xs ih =>
    intro seen
    by_cases hx : x ∈ seen
    · have hmask : keepMask seen (x :: xs) = false :: keepMask (x :: seen) xs := by
        simp [keepMask, hx]
      rw [hmask]
      have hres : applyKeep (false :: keepMask (x :: seen) xs) (x :: xs) =
          applyKeep (keepMask (x :: seen) xs) xs := by
        simp [applyKeep, List.zip_cons_cons, List.filterMap_cons]
      rw [hres]
      refine ⟨(ih (x :: seen)).1, fun y hy hys => ?_⟩
      exact (ih (x :: seen)).2 y hy (List.mem_cons_of_mem x hys)
    · have hmask : keepMask seen (x :: xs) = true :: keepMask (x :: seen) xs := by
        simp [keepMask, hx]
      rw [hmask]
      have hres : applyKeep (true :: keepMask (x :: seen) xs) (x :: xs) =
          x :: applyKeep (keepMask (x :: seen) xs) xs := by
        simp [applyKeep, List.zip_cons_cons, List.filterMap_cons]
      rw [hres]
      constructor
      · refine List.nodup_cons.mpr ⟨fun hmem => ?_, (ih (x :: seen)).1⟩
        exact (ih (x :: seen)).2 x hmem (List.mem_cons_self x seen)
      · intro y hy
        rcases List.mem_cons.mp hy with rfl | hy
        · exact hx
        · intro hys
          exact (ih (x :: seen)).2 y hy (List.mem_cons_of_mem x hys)

theorem ensure_unique_nodup (d : PDS) :
    (ensure_unique_lead_time d).leadTimes.Nodup := by
  unfold ensure_unique_lead_time
  split
  · assumption
  · exact (keepMask_filter_nodup d.leadTimes []).1

theorem reindexRow_self :
    ∀ (l : List ℚ) (row : List Val), l.Nodup → row.length = l.length →
      reindexRow l l row = row := by
  intro l
  induction l with
  | nil =>
    intro row _ hlen
    cases row with
    | nil => rfl
    | cons r rs => simp at hlen
  | cons x ls ih =>
    intro row hnd hlen
    cases row with
    | nil => simp at hlen
    | cons r rs =>
      simp only [List.length_cons, Nat.succ.injEq] at hlen
      have hx : x ∉ ls := (List.nodup_cons.mp hnd).1
      unfold reindexRow
      rw [List.map_cons]
      have hhead : (match idxLookup x (x :: ls) with
          | some j => (r :: rs).getD j none
          | none => none) = r := by
        simp [idxLookup]
      rw [hhead]
      have htail : (ls.map fun t =>
          match idxLookup t (x :: ls) with
          | some j => (r :: rs).getD j none
          | none => none) = reindexRow ls ls rs := by
        refine List.map_congr_left fun t ht => ?_
        have hne : ¬ x = t := fun h => hx (h ▸ ht)
        simp only [idxLookup, if_neg hne]
        cases idxLookup t ls <;> simp [reindexRow]
      rw [htail, ih rs (List.nodup_cons.mp hnd).2 hlen]

theorem unionLeads_single (l : List ℚ) : unionLeads [l] = l := by
  simp [unionLeads, List.filter_eq_self]

theorem unionLeads_pair_self (l : List ℚ) : unionLeads [l, l] = l := by
  have hfilter : (l.filter fun t => ¬ l.contains t) = [] := by
    refine List.filter_eq_nil_iff.mpr fun a ha => ?_
    simp [List.elem_iff.mpr ha, ha]
  simp [unionLeads, List.filter_eq_self, hfilter]

theorem bestIdx_pair (e : PDS) (s : String) (hs : s ∈ e.sources) :
    bestIdx [e, e] s = some 0 := by
  unfold bestIdx candidatesFrom candidatesFrom candidatesFrom
  simp [hs, argmaxFirst, lt_self_iff_false]

theorem bestIdx_single (e : PDS) (s : String) (hs : s ∈ e.sources) :
    bestIdx [e] s = some 0 := by
  unfold bestIdx candidatesFrom candidatesFrom
  simp [hs, argmaxFirst]

theorem select_pair (e : PDS) (hlen : e.data.length = e.sources.length) :
    select_best_sources [e, e] =
      [e, { sources := [], leadTimes := e.leadTimes, data := [] }] := by
  unfold select_best_sources selectBestAux selectBestAux selectBestAux
  have hm0 : ∀ b ∈ e.sources.map fun s => bestIdx [e, e] s == some 0, b = true := by
    intro b hb
    rcases List.mem_map.mp hb with ⟨s, hs, rfl⟩
    simp [bestIdx_pair e s hs]
  have hm1 : ∀ b ∈ e.sources.map fun s => bestIdx [e, e] s == some 1, b = false := by
    intro b hb
    rcases List.mem_map.mp hb with ⟨s, hs, rfl⟩
    simp [bestIdx_pair e s hs]
  congr 1
  · unfold filterSources
    rw [applyKeep_all_true _ _ hm0 (by simp),
      applyKeep_all_true _ _ hm0 (by simp [hlen])]
  · congr 1
    unfold filterSources
    rw [applyKeep_all_false _ _ hm1, applyKeep_all_false _ _ hm1]

theorem select_single (e : PDS) (hlen : e.data.length = e.sources.length) :
    select_best_sources [e] = [e] := by
  unfold select_best_sources selectBestAux selectBestAux
  have hm0 : ∀ b ∈ e.sources.map fun s => bestIdx [e] s == some 0, b = true := by
    intro b hb
    rcases List.mem_map.mp hb with ⟨s, hs, rfl⟩
    simp [bestIdx_single e s hs]
  congr 1
  unfold filterSources
  rw [applyKeep_all_true _ _ hm0 (by simp),
    applyKeep_all_true _ _ hm0 (by simp [hlen])]

theorem ensure_unique_row_length (d : PDS)
    (hrow : ∀ row ∈ d.data, row.length = d.leadTimes.length) :
    ∀ row ∈ (ensure_unique_lead_time d).data,
      row.length = (ensure_unique_lead_time d).leadTimes.length := by
  unfold ensure_unique_lead_time
  split
  · exact hrow
  · intro row hr
    rcases List.mem_map.mp hr with ⟨r0, hr0, rfl⟩
    exact applyKeep_length_eq _ r0 d.leadTimes (hrow r0 hr0)

theorem ensure_unique_data_length (d : PDS)
    (hlen : d.data.length = d.sources.length) :
    (ensure_unique_lead_time d).data.length = (ensure_unique_lead_time d).sources.length := by
  unfold ensure_unique_lead_time
  split
  · exact hlen
  · simpa using hlen

theorem concat_self_eta (e : PDS) (hnd : e.leadTimes.Nodup)
    (hrow : ∀ row ∈ e.data, row.length = e.leadTimes.length) :
    e.data.map (fun row => reindexRow e.leadTimes e.leadTimes row) = e.data := by
  have h1 : e.data.map (fun row => reindexRow e.leadTimes e.leadTimes row) =
      e.data.map id :=
    List.map_congr_left fun row hr => reindexRow_self _ _ hnd (hrow row hr)
  rw [h1, List.map_id]

/-- C7: feeding the same per-run dataset twice into the plotting
aggregation is harmless: after lead-time deduplication the duplicated
source labels are kept only in the first input (greatest distinct-lead-time
count, first wins on the tie) and dropped from the second, so the pipeline
output — and hence any mean computed from it — is identical to aggregating
the dataset once. -/
theorem c7_no_double_counting (d : PDS)
    (hrow : ∀ row ∈ d.data, row.length = d.leadTimes.length)
    (hlen : d.data.length = d.sources.length) :
    (select_best_sources
        [ensure_unique_lead_time d, ensure_unique_lead_time d]).map PDS.sources =
      [(ensure_unique_lead_time d).sources, []] ∧
    plotMetricsPipeline [d, d] = plotMetricsPipeline [d] ∧
    meanAll (plotMetricsPipeline [d, d]) = meanAll (plotMetricsPipeline [d]) := by
  have he_row := ensure_unique_row_length d hrow
  have he_len := ensure_unique_data_length d hlen
  have hnd := ensure_unique_nodup d
  have hsel := select_pair (ensure_unique_lead_time d) he_len
  have hsel1 := select_single (ensure_unique_lead_time d) he_len
  have hmap2 : [d, d].map ensure_unique_lead_time =
      [ensure_unique_lead_time d, ensure_unique_lead_time d] := rfl
  have hmap1 : [d].map ensure_unique_lead_time = [ensure_unique_lead_time d] := rfl
  have hpipe2 : plotMetricsPipeline [d, d] =
      { sources := (ensure_unique_lead_time d).sources
        leadTimes := (ensure_unique_lead_time d).leadTimes
        data := (ensure_unique_lead_time d).data } := by
    unfold plotMetricsPipeline
    rw [hmap2, hsel]
    unfold concatSources
    simp only [List.map_cons, List.map_nil, List.flatMap_cons, List.flatMap_nil,
      List.append_nil, unionLeads_pair_self]
    rw [concat_self_eta _ hnd he_row]
  have hpipe1 : plotMetricsPipeline [d] =
      { sources := (ensure_unique_lead_time d).sources
        leadTimes := (ensure_unique_lead_time d).leadTimes
        data := (ensure_unique_lead_time d).data } := by
    unfold plotMetricsPipeline
    rw [hmap1, hsel1]
    unfold concatSources
    simp only [List.map_cons, List.map_nil, List.flatMap_cons, List.flatMap_nil,
      List.append_nil, unionLeads_single]
    rw [concat_self_eta _ hnd he_row]
  refine ⟨by rw [hsel]; rfl, by rw [hpipe2, hpipe1], by rw [hpipe2, hpipe1]⟩

/-- Witness for C7 at a concrete dataset with a duplicated lead time. -/
theorem c7_no_double_counting_witness :
    plotMetricsPipeline
        [⟨["ml", "cosmo"], [0, 6, 6], [[some 1, some 2, some 3], [some 4, none, some 6]]⟩,
         ⟨["ml", "cosmo"], [0, 6, 6], [[some 1, some 2, some 3], [some 4, none, some 6]]⟩] =
      plotMetricsPipeline
        [⟨["ml", "cosmo"], [0, 6, 6], [[some 1, some 2, some 3], [some 4, none, some 6]]⟩] :=
  (c7_no_double_counting
    ⟨["ml", "cosmo"], [0, 6, 6], [[some 1, some 2, some 3], [some 4, none, some 6]]⟩
    (by decide) (by decide)).2.1

theorem foldl_argmax_first :
    ∀ (t : List (Nat × Nat)) (b : Nat × Nat),
      (b :: t).Pairwise (fun a c => a.1 < c.1) →
      (t.foldl (fun acc x => if x.2 > acc.2 then x else acc) b) ∈ b :: t ∧
      (∀ p ∈ b :: t, p.2 ≤ (t.foldl (fun acc x => if x.2 > acc.2 then x else acc) b).2) ∧
      (∀ p ∈ b :: t, p.2 = (t.foldl (fun acc x => if x.2 > acc.2 then x else acc) b).2 →
        (t.foldl (fun acc x => if x.2 > acc.2 then x else acc) b).1 ≤ p.1) := by
  intro t
  induction t with
  | nil =>
    intro b _
    refine ⟨List.mem_cons_self b [], ?_, ?_⟩ <;> intro p hp <;>
      rcases List.mem_cons.mp hp with rfl | hp <;> simp_all
  | cons x xs ih =>
    intro b hpw
    have hbx : b.1 < x.1 := (List.pairwise_cons.mp hpw).1 x (List.mem_cons_self x xs)
    have hpw2 : ((if x.2 > b.2 then x else b) :: xs).Pairwise (fun a c => a.1 < c.1) := by
      have hx : (x :: xs).Pairwise (fun a c => a.1 < c.1) := (List.pairwise_cons.mp hpw).2
      have hxxs := (List.pairwise_cons.mp hx).1
      have hxs := (List.pairwise_cons.mp hx).2
      refine List.pairwise_cons.mpr ⟨?_, hxs⟩
      intro c hc
      split
      · exact hxxs c hc
      · exact lt_trans hbx (hxxs c hc)
    obtain ⟨hmem, hmax, hfirst⟩ := ih (if x.2 > b.2 then x else b) hpw2
    have hfb2 : b.2 ≤ (if x.2 > b.2 then x else b).2 := by
      split
      · exact le_of_lt (by assumption)
      · exact le_refl b.2
    have hfx2 : x.2 ≤ (if x.2 > b.2 then x else b).2 := by
      split
      · exact le_refl x.2
      · exact le_of_not_lt (by assumption)
    set r := xs.foldl (fun acc x => if x.2 > acc.2 then x else acc) (if x.2 > b.2 then x else b)
      with hr
    have hr2 : (if x.2 > b.2 then x else b).2 ≤ r.2 :=
      hmax _ (List.mem_cons_self _ xs)
    rw [List.foldl_cons]
    refine ⟨?_, ?_, ?_⟩
    · rcases List.mem_cons.mp hmem with hm | hm
      · rw [← hr, hm]
        split
        · exact List.mem_cons_of_mem b (List.mem_cons_self x xs)
        · exact List.mem_cons_self b (x :: xs)
      · exact List.mem_cons_of_mem b (List.mem_cons_of_mem x hm)
    · intro p hp
      rcases List.mem_cons.mp hp with rfl | hp
      · exact le_trans hfb2 hr2
      · rcases List.mem_cons.mp hp with rfl | hp
        · exact le_trans hfx2 hr2
        · exact hmax p (List.mem_cons_of_mem _ hp)
    · intro p hp hp2
      rw [← hr] at hp2
      rcases List.mem_cons.mp hp with hpb | hp
      · have hfb : (if x.2 > b.2 then x else b) = b := by
          by_cases hgt : x.2 > b.2
          · exfalso
            rw [if_pos hgt] at hr2
            rw [hpb] at hp2
            omega
          · exact if_neg hgt
        have hres := hfirst b (List.mem_cons.mpr (Or.inl hfb.symm))
          (by rw [← hpb]; exact hp2)
        rw [hpb]
        exact hres
      · rcases List.mem_cons.mp hp with hpx | hp
        · by_cases hgt : x.2 > b.2
          · have hres := hfirst x (List.mem_cons.mpr (Or.inl (if_pos hgt).symm))
              (by rw [← hpx]; exact hp2)
            rw [hpx]
            exact hres
          · have hble : x.2 ≤ b.2 := le_of_not_lt hgt
            have hxr : x.2 = r.2 := by rw [← hpx]; exact hp2
            have hb2r : b.2 = r.2 := le_antisymm (le_trans hfb2 hr2) (by omega)
            have hres := hfirst b (List.mem_cons.mpr (Or.inl (if_neg hgt).symm)) hb2r
            rw [hpx]
            exact le_trans hres (le_of_lt hbx)
        · exact hfirst p (List.mem_cons_of_mem _ hp) hp2

theorem candidatesFrom_mem (s : String) :
    ∀ (dfs : List PDS) (i : Nat) (p : Nat × Nat),
      p ∈ candidatesFrom s i dfs ↔
        ∃ k, k < dfs.length ∧ p = (i + k, uniqueCount (dfs.getD k pdsDefault).leadTimes) ∧
          s ∈ (dfs.getD k pdsDefault).sources := by
  intro dfs
  induction dfs with
  | nil => intro i p; simp [candidatesFrom]
  | cons d ds ih =>
    intro i p
    unfold candidatesFrom
    constructor
    · intro hp
      rcases List.mem_append.mp hp with hp | hp
      · by_cases hs : s ∈ d.sources
        · rw [if_pos hs] at hp
          rcases List.mem_singleton.mp hp with rfl
          exact ⟨0, by simp, by simp, by simpa using hs⟩
        · rw [if_neg hs] at hp
          exact absurd hp (List.not_mem_nil p)
      · obtain ⟨k, hk, hpk, hsk⟩ := (ih (i + 1) p).mp hp
        refine ⟨k + 1, by simpa using hk, ?_, by simpa using hsk⟩
        rw [hpk]
        simp [Nat.add_assoc, Nat.add_comm 1 k]
    · rintro ⟨k, hk, rfl, hsk⟩
      cases k with
      | zero =>
        simp only [List.getD_cons_zero] at hsk
        refine List.mem_append.mpr (Or.inl ?_)
        rw [if_pos hsk]
        simp
      | succ k0 =>
        refine List.mem_append.mpr (Or.inr ?_)
        refine (ih (i + 1) _).mpr ⟨k0, by simpa using hk, ?_, by simpa using hsk⟩
        simp [Nat.add_assoc, Nat.add_comm 1 k0]

theorem candidatesFrom_lb (s : String) :
    ∀ (dfs : List PDS) (i : Nat) (p : Nat × Nat), p ∈ candidatesFrom s i dfs → i ≤ p.1 := by
  intro dfs i p hp
  obtain ⟨k, -, rfl, -⟩ := (candidatesFrom_mem s dfs i p).mp hp
  simp

theorem candidatesFrom_pairwise (s : String) :
    ∀ (dfs : List PDS) (i : Nat),
      (candidatesFrom s i dfs).Pairwise (fun a c => a.1 < c.1) := by
  intro dfs
  induction dfs with
  | nil => intro i; simp [candidatesFrom]
  | cons d ds ih =>
    intro i
    unfold candidatesFrom
    by_cases hs : s ∈ d.sources
    · rw [if_pos hs]
      refine List.Pairwise.cons ?_ (ih (i + 1))
      intro c hc
      have := candidatesFrom_lb s ds (i + 1) c hc
      simpa using lt_of_lt_of_le (Nat.lt_succ_self i) this
    · rw [if_neg hs]
      simpa using ih (i + 1)

theorem candidatesFrom_ne_nil (s : String) :
    ∀ (dfs : List PDS) (i : Nat) (d0 : PDS), d0 ∈ dfs → s ∈ d0.sources →
      candidatesFrom s i dfs ≠ [] := by
  intro dfs
  induction dfs with
  | nil => intro i d0 h; exact absurd h (List.not_mem_nil d0)
  | cons d ds ih =>
    intro i d0 hd0 hs
    unfold candidatesFrom
    rcases List.mem_cons.mp hd0 with rfl | hd0
    · rw [if_pos hs]
      simp
    · intro hcontra
      rcases List.append_eq_nil.mp hcontra with ⟨-, h2⟩
      exact ih (i + 1) d0 hd0 hs h2

theorem bestIdx_spec (dfs : List PDS) (s : String) (j : Nat)
    (hb : bestIdx dfs s = some j) :
    j < dfs.length ∧ s ∈ (dfs.getD j pdsDefault).sources ∧
    (∀ k, k < dfs.length → s ∈ (dfs.getD k pdsDefault).sources →
      uniqueCount (dfs.getD k pdsDefault).leadTimes ≤
        uniqueCount (dfs.getD j pdsDefault).leadTimes) ∧
    (∀ k, k < dfs.length → s ∈ (dfs.getD k pdsDefault).sources →
      uniqueCount (dfs.getD k pdsDefault).leadTimes =
        uniqueCount (dfs.getD j pdsDefault).leadTimes → j ≤ k) := by
  unfold bestIdx at hb
  rcases hcand : candidatesFrom s 0 dfs with _ | ⟨b, t⟩
  · rw [hcand] at hb
    simp [argmaxFirst] at hb
  · rw [hcand] at hb
    simp only [argmaxFirst, Option.some.injEq] at hb
    have hpw := candidatesFrom_pairwise s dfs 0
    rw [hcand] at hpw
    obtain ⟨hmem, hmax, hfirst⟩ := foldl_argmax_first t b hpw
    have hrc : (t.foldl (fun acc x => if x.2 > acc.2 then x else acc) b) ∈
        candidatesFrom s 0 dfs := by rw [hcand]; exact hmem
    obtain ⟨k, hk, hrk, hsk⟩ :=
      (candidatesFrom_mem s dfs 0 _).mp hrc
    have hj : j = k := by rw [← hb, hrk]; simp
    subst hj
    have hr2 : (t.foldl (fun acc x => if x.2 > acc.2 then x else acc) b).2 =
        uniqueCount (dfs.getD j pdsDefault).leadTimes := by rw [hrk]
    refine ⟨hk, hsk, ?_, ?_⟩
    · intro k2 hk2 hsk2
      have hmem2 : (k2, uniqueCount (dfs.getD k2 pdsDefault).leadTimes) ∈
          candidatesFrom s 0 dfs :=
        (candidatesFrom_mem s dfs 0 _).mpr ⟨k2, hk2, by simp, hsk2⟩
      rw [hcand] at hmem2
      have := hmax _ hmem2
      rw [hr2] at this
      exact this
    · intro k2 hk2 hsk2 heq
      have hmem2 : (k2, uniqueCount (dfs.getD k2 pdsDefault).leadTimes) ∈
          candidatesFrom s 0 dfs :=
        (candidatesFrom_mem s dfs 0 _).mpr ⟨k2, hk2, by simp, hsk2⟩
      rw [hcand] at hmem2
      have := hfirst _ hmem2 (by rw [hr2]; exact heq)
      rw [hrk] at this
      simpa using this

theorem bestIdx_some (dfs : List PDS) (s : String) (d0 : PDS)
    (hd0 : d0 ∈ dfs) (hs : s ∈ d0.sources) :
    ∃ j, bestIdx dfs s = some j := by
  unfold bestIdx
  rcases hcand : candidatesFrom s 0 dfs with _ | ⟨b, t⟩
  · exact absurd hcand (candidatesFrom_ne_nil s dfs 0 d0 hd0 hs)
  · exact ⟨_, rfl⟩

theorem selectBestAux_length (dfs : List PDS) :
    ∀ (rest : List PDS) (i : Nat), (selectBestAux dfs i rest).length = rest.length := by
  intro rest
  induction rest with
  | nil => intro i; rfl
  | cons d rs ih => intro i; simp [selectBestAux, ih]

theorem selectBestAux_getD (dfs : List PDS) :
    ∀ (rest : List PDS) (i j : Nat), j < rest.length →
      (selectBestAux dfs i rest).getD j pdsDefault =
        filterSources (fun s => bestIdx dfs s == some (i + j)) (rest.getD j pdsDefault) := by
  intro rest
  induction rest with
  | nil => intro i j h; simp at h
  | cons d rs ih =>
    intro i j hj
    cases j with
    | zero => simp [selectBestAux]
    | succ j0 =>
      simp only [selectBestAux, List.getD_cons_succ]
      rw [ih (i + 1) j0 (by simpa using hj)]
      have harith : i + 1 + j0 = i + (j0 + 1) := by omega
      rw [harith]

theorem filterSources_sources (keep : String → Bool) (d : PDS) :
    (filterSources keep d).sources = d.sources.filter keep := by
  simp [filterSources, applyKeep_map]

theorem select_mem_char (dfs : List PDS) (s : String) (k : Nat) (hk : k < dfs.length) :
    s ∈ ((select_best_sources dfs).getD k pdsDefault).sources ↔
      bestIdx dfs s = some k ∧ s ∈ (dfs.getD k pdsDefault).sources := by
  unfold select_best_sources
  rw [selectBestAux_getD dfs dfs 0 k hk, filterSources_sources]
  simp [List.mem_filter, and_comm]

/-- C10: best-source selection returns one output dataset per input, in
order, each a label-filtered copy of its input (sources a sublist of the
input's, lead times untouched); every source label present anywhere is kept
in exactly one output — the first dataset achieving the maximal number of
distinct lead times for that label (ties resolved to the earliest input). -/
theorem c10_best_source_invariants (dfs : List PDS) (hne : dfs ≠ []) :
    (select_best_sources dfs).length = dfs.length ∧
    (∀ j, j < dfs.length →
      ((select_best_sources dfs).getD j pdsDefault).sources =
        (dfs.getD j pdsDefault).sources.filter (fun s => bestIdx dfs s == some j) ∧
      ((select_best_sources dfs).getD j pdsDefault).sources.Sublist
        (dfs.getD j pdsDefault).sources ∧
      ((select_best_sources dfs).getD j pdsDefault).leadTimes =
        (dfs.getD j pdsDefault).leadTimes) ∧
    (∀ s d0, d0 ∈ dfs → s ∈ d0.sources →
      ∃ j, j < dfs.length ∧
        s ∈ ((select_best_sources dfs).getD j pdsDefault).sources ∧
        ∀ k, k < dfs.length →
          s ∈ ((select_best_sources dfs).getD k pdsDefault).sources → k = j) ∧
    (∀ s i, i < dfs.length → s ∈ (dfs.getD i pdsDefault).sources →
      (∀ k, k < dfs.length → s ∈ (dfs.getD k pdsDefault).sources →
        uniqueCount (dfs.getD k pdsDefault).leadTimes ≤
          uniqueCount (dfs.getD i pdsDefault).leadTimes) →
      (∀ k, k < i → s ∈ (dfs.getD k pdsDefault).sources →
        uniqueCount (dfs.getD k pdsDefault).leadTimes <
          uniqueCount (dfs.getD i pdsDefault).leadTimes) →
      bestIdx dfs s = some i ∧
        s ∈ ((select_best_sources dfs).getD i pdsDefault).sources) := by
  refine ⟨selectBestAux_length dfs dfs 0, ?_, ?_, ?_⟩
  · intro j hj
    unfold select_best_sources
    rw [selectBestAux_getD dfs dfs 0 j hj]
    simp only [Nat.zero_add]
    exact ⟨filterSources_sources _ _,
      by rw [filterSources_sources]; exact List.filter_sublist _, rfl⟩
  · intro s d0 hd0 hs
    obtain ⟨j, hbj⟩ := bestIdx_some dfs s d0 hd0 hs
    obtain ⟨hjlen, hjsrc, -, -⟩ := bestIdx_spec dfs s j hbj
    refine ⟨j, hjlen, (select_mem_char dfs s j hjlen).mpr ⟨hbj, hjsrc⟩, ?_⟩
    intro k hk hmemk
    have := ((select_mem_char dfs s k hk).mp hmemk).1
    rw [hbj] at this
    exact (Option.some.inj this).symm
  · intro s i hi hsi hmax hfirst
    have hd0 : dfs.getD i pdsDefault ∈ dfs := by
      rw [List.getD_eq_getElem dfs pdsDefault hi]
      exact List.getElem_mem hi
    obtain ⟨j, hbj⟩ := bestIdx_some dfs s _ hd0 hsi
    obtain ⟨hjlen, hjsrc, hjmax, hjfirst⟩ := bestIdx_spec dfs s j hbj
    have hij : i = j := by
      have h1 : uniqueCount (dfs.getD j pdsDefault).leadTimes ≤
          uniqueCount (dfs.getD i pdsDefault).leadTimes := hmax j hjlen hjsrc
      have h2 : uniqueCount (dfs.getD i pdsDefault).leadTimes ≤
          uniqueCount (dfs.getD j pdsDefault).leadTimes := hjmax i hi hsi
      have heq : uniqueCount (dfs.getD i pdsDefault).leadTimes =
          uniqueCount (dfs.getD j pdsDefault).leadTimes := le_antisymm h2 h1
      rcases lt_trichotomy i j with hlt | heqij | hgt
      · have := hjfirst i hi hsi heq
        omega
      · exact heqij
      · have := hfirst j hgt hjsrc
        omega
    subst hij
    exact ⟨hbj, (select_mem_char dfs s i hi).mpr ⟨hbj, hsi⟩⟩

/-- Witness for C10: two inputs sharing source "ml" with equally many
distinct lead times — the earlier input wins the tie. -/
theorem c10_best_source_invariants_witness :
    bestIdx [⟨["ml"], [0, 6], [[some 1, some 2]]⟩,
      ⟨["ml"], [0, 6], [[some 3, some 4]]⟩] "ml" = some 0 ∧
    "ml" ∈ ((select_best_sources [⟨["ml"], [0, 6], [[some 1, some 2]]⟩,
      ⟨["ml"], [0, 6], [[some 3, some 4]]⟩]).getD 0 pdsDefault).sources :=
  (c10_best_source_invariants
      [⟨["ml"], [0, 6], [[some 1, some 2]]⟩, ⟨["ml"], [0, 6], [[some 3, some 4]]⟩]
      (by decide)).2.2.2 "ml" 0 (by decide) (by decide) (by decide) (by decide)
